import Mathlib

/-!
Verification development for the `analyse-fpl` pipeline
(`analyse_fpl/run_analysis.py`, `analyse_fpl/model.py`).

The Python code is shallowly embedded: pandas dataframes become a
`Df` structure (a column-name list plus rows of labelled cells),
CSV files become in-memory `Df` values supplied by a `DataSource`,
floating-point numbers are modelled as rationals, and the pandas
missing-value marker `NaN` is an explicit `Value.nan` constructor.
-/

/-- A cell value as carried through the pipeline after `pandas.read_csv`:
an integer, a floating-point number (modelled as a rational), a string,
or the missing-value marker `NaN`. -/
inductive Value where
  | int : Int → Value
  | float : Rat → Value
  | str : String → Value
  | nan : Value
deriving DecidableEq

/-- `NaN` test (`pd.isna`). -/
def Value.isNan : Value → Bool
  | .nan => true
  | _ => false

/-- ASCII lowercasing of a string (`str.lower()` on the flag renderings,
which are ASCII). -/
def strLower (s : String) : String := String.mk (s.data.map Char.toLower)

/-- `df[col].astype(str).str.lower() == 'true'`: the tolerant boolean
parsing used for the `finished` / `data_checked` / `is_next` columns.
The raw cell is modelled by its `astype(str)` rendering. -/
def parsePyBool (s : String) : Bool := strLower s == "true"

/-- One row of `gameweek_summaries.csv`.  The three flag columns are kept
as their raw textual rendering (the code re-parses them tolerantly);
`deadline_time` is the timestamp produced by `pd.to_datetime`, modelled
as a natural number (order-isomorphic to the datetime values). -/
structure GameweekRecord where
  id : Int
  finished : String
  data_checked : String
  is_next : String
  deadline_time : Nat
deriving DecidableEq

/-- `get_recent_finished_gameweeks` (run_analysis.py:8-36): keep records
with both flags parsing to true, sort by `deadline_time` descending
(`sort_values(ascending=False)`), take the first `num` ids. -/
def get_recent_finished_gameweeks (records : List GameweekRecord) (num : Nat) : List Int :=
  let finished_checked :=
    records.filter (fun r => parsePyBool r.finished && parsePyBool r.data_checked)
  let sorted := List.insertionSort (fun a b => b.deadline_time ≤ a.deadline_time) finished_checked
  (sorted.take num).map (fun r => r.id)

/-- `get_next_gameweek` (run_analysis.py:194-222): first record flagged
`is_next`, else the unfinished record with the earliest `deadline_time`
(`sort_values(ascending=True)` then `iloc[0]`), else `None`. -/
def get_next_gameweek (records : List GameweekRecord) : Option Int :=
  match records.filter (fun r => parsePyBool r.is_next) with
  | r :: _ => some r.id
  | [] =>
    match List.insertionSort (fun a b => a.deadline_time ≤ b.deadline_time)
        (records.filter (fun r => !parsePyBool r.finished)) with
    | r :: _ => some r.id
    | [] => none

instance : IsTotal GameweekRecord (fun a b => b.deadline_time ≤ a.deadline_time) :=
  ⟨fun a b => Nat.le_total b.deadline_time a.deadline_time⟩

instance : IsTrans GameweekRecord (fun a b => b.deadline_time ≤ a.deadline_time) :=
  ⟨fun _ _ _ h1 h2 => Nat.le_trans h2 h1⟩

instance : IsTotal GameweekRecord (fun a b => a.deadline_time ≤ b.deadline_time) :=
  ⟨fun a b => Nat.le_total a.deadline_time b.deadline_time⟩

instance : IsTrans GameweekRecord (fun a b => a.deadline_time ≤ b.deadline_time) :=
  ⟨fun _ _ _ h1 h2 => Nat.le_trans h1 h2⟩

/-- A small concrete schedule: gameweek 1 finished, gameweek 2 flagged
`is_next`. -/
def scheduleW : List GameweekRecord :=
  [⟨1, "True", "True", "False", 10⟩, ⟨2, "False", "False", "True", 20⟩]

/-- A dataframe row: labelled cells, in column order. -/
abbrev Row := List (String × Value)

/-- Look up a cell by column label (first occurrence); a missing label
reads as `NaN`, matching how reindexing fills absent columns. -/
def cellR (r : Row) (k : String) : Value :=
  match r.find? (fun kv => kv.1 == k) with
  | some kv => kv.2
  | none => Value.nan

/-- A pandas dataframe: the column index plus the rows.  Rows constructed
by the pipeline carry exactly the columns of the index, in order. -/
structure Df where
  cols : List String
  rows : List Row
deriving DecidableEq

/-- `pd.DataFrame()`. -/
def Df.empty : Df := ⟨[], []⟩

/-- `df.empty`: true when either axis has length 0. -/
def Df.isEmpty (df : Df) : Bool := df.rows.isEmpty || df.cols.isEmpty

/-- Row projection onto a column list, labels absent from a row reading
as `NaN`: the alignment `pd.concat` applies when reindexing rows to the
union column index. -/
def Df.reindexCols (df : Df) (cs : List String) : Df :=
  ⟨cs, df.rows.map (fun r => cs.map (fun c => (c, cellR r c)))⟩

/-- `df[cs]` list-label column projection (applied to the reference
tables before merging): raises `KeyError` when any requested label is
absent from the column index, else projects each row onto the labels. -/
def Df.select (df : Df) (cs : List String) : Except String Df :=
  if cs.all (fun c => df.cols.contains c) then Except.ok (df.reindexCols cs)
  else Except.error "KeyError: columns not in index"

/-- `df[c] = v`: overwrite the column when present, else append it. -/
def Df.setCol (df : Df) (c : String) (v : Value) : Df :=
  if df.cols.contains c then
    ⟨df.cols, df.rows.map (fun r => r.map (fun kv => if kv.1 == c then (kv.1, v) else kv))⟩
  else
    ⟨df.cols ++ [c], df.rows.map (fun r => r ++ [(c, v)])⟩

/-- `pd.concat(dfs, ignore_index=True)`: the column index is the union in
order of first appearance, and every row is reindexed to it (absent
columns read as `NaN`). -/
def concatDfs (dfs : List Df) : Df :=
  let cols := dfs.foldl (fun acc df => acc ++ df.cols.filter (fun c => !acc.contains c)) []
  ⟨cols, dfs.flatMap (fun df => df.rows.map (fun r => cols.map (fun c => (c, cellR r c))))⟩

/-- Join-key equality, following `pd.merge`'s key factorization: `NaN`
keys are assigned one shared NA group on both sides and therefore match
each other; numeric keys compare by value across int/float dtypes; keys
of unlike kinds never match. -/
def Value.keyEq : Value → Value → Bool
  | .int m, .int n => m == n
  | .int m, .float q => (m : Rat) == q
  | .float q, .int n => q == (n : Rat)
  | .float p, .float q => p == q
  | .str s, .str t => s == t
  | .nan, .nan => true
  | _, _ => false

/-- `left.merge(right, left_on=lkey, right_on=rkey, how='left',
suffixes=(ls, rs))`: overlapping column names are disambiguated by the
suffixes; every left row is kept, paired with each matching right row, or
with `NaN`-filled right columns when no right row matches. -/
def Df.merge (left right : Df) (lkey rkey ls rs : String) : Df :=
  let lsuf := fun c => if right.cols.contains c then c ++ ls else c
  let rsuf := fun c => if left.cols.contains c then c ++ rs else c
  let rcols := right.cols.map rsuf
  ⟨left.cols.map lsuf ++ rcols,
    left.rows.flatMap (fun lr =>
      let lpart := lr.map (fun kv => (lsuf kv.1, kv.2))
      let ms := right.rows.filter (fun rr => (cellR rr rkey).keyEq (cellR lr lkey))
      if ms.isEmpty then [lpart ++ rcols.map (fun c => (c, Value.nan))]
      else ms.map (fun rr => lpart ++ rr.map (fun kv => (rsuf kv.1, kv.2))))⟩

/-- `df.drop(columns=[c], errors='ignore')`: remove every column labelled
exactly `c`; absent labels are ignored. -/
def Df.dropCol (df : Df) (c : String) : Df :=
  ⟨df.cols.filter (fun c0 => c0 != c), df.rows.map (fun r => r.filter (fun kv => kv.1 != c))⟩

/-- Column-name translation of `df.rename(columns=m)`. -/
def renameKey (m : List (String × String)) (c : String) : String :=
  match m.find? (fun p => p.1 == c) with
  | some p => p.2
  | none => c

/-- `df.rename(columns=m)`. -/
def Df.renameCols (df : Df) (m : List (String × String)) : Df :=
  ⟨df.cols.map (renameKey m), df.rows.map (fun r => r.map (fun kv => (renameKey m kv.1, kv.2)))⟩

/-- The snapshot directory tree: the parsed schedule plus, per gameweek
id, the optionally present CSV files (`none` models a missing file). -/
structure DataSource where
  schedule : List GameweekRecord
  statsFile : Int → Option Df
  playersFile : Int → Option Df
  teamsFile : Int → Option Df

/-- Walk a candidate list and return the first present file, or an empty
frame when none exists. -/
def loadFirst (file : Int → Option Df) : List Int → Df
  | [] => Df.empty
  | i :: rest =>
    match file i with
    | some df => df
    | none => loadFirst file rest

instance : IsTotal Int (fun a b => b ≤ a) := ⟨fun a b => Int.le_total b a⟩

instance : IsTrans Int (fun a b => b ≤ a) := ⟨fun _ _ _ h1 h2 => Int.le_trans h2 h1⟩

/-- `load_players_data` (run_analysis.py:39-59): try the candidate
gameweeks from most recent (`sorted(gameweek_ids, reverse=True)`) to
least recent and return the first `players.csv` that exists, else an
empty frame with a warning. -/
def load_players_data (src : DataSource) (gameweek_ids : List Int) : Df :=
  loadFirst src.playersFile (List.insertionSort (fun a b : Int => b ≤ a) gameweek_ids)

/-- `load_teams_data` (run_analysis.py:62-82): identical policy for
`teams.csv`. -/
def load_teams_data (src : DataSource) (gameweek_ids : List Int) : Df :=
  loadFirst src.teamsFile (List.insertionSort (fun a b : Int => b ≤ a) gameweek_ids)

/-- A one-row `players.csv` snapshot. -/
def dfPW : Df := ⟨["player_id", "position", "team_code"],
  [[("player_id", Value.int 1), ("position", Value.str "MID"), ("team_code", Value.int 3)]]⟩

/-- A source whose `players.csv` exists only under gameweek 2. -/
def srcW : DataSource :=
  ⟨scheduleW, fun _ => none, fun i => if i == 2 then some dfPW else none, fun _ => none⟩

/-- The seven strength metrics pulled from `teams.csv`
(run_analysis.py:145-149). -/
def strength_fields : List String :=
  ["strength", "strength_overall_home", "strength_overall_away",
   "strength_attack_home", "strength_attack_away",
   "strength_defence_home", "strength_defence_away"]

/-- run_analysis.py:125-137: merge `position` / `team_code` from
`players.csv` onto the combined stats (left join on `id` = `player_id`,
default suffixes `('_x', '_y')`) and drop the `player_id` key column
(`errors='ignore'`); skipped when the players frame is empty.
`Except.error` models the uncaught `KeyError` that the list-label
selection `players_df[['player_id', 'position', 'team_code']]` raises
when a label is absent. -/
def merge_player_data (combined players_df : Df) : Except String Df :=
  if !players_df.isEmpty then
    (players_df.select ["player_id", "position", "team_code"]).map (fun sel =>
      (combined.merge sel "id" "player_id" "_x" "_y").dropCol "player_id")
  else Except.ok combined

/-- The rename dictionary of run_analysis.py:164-175: `team_` prefixes
for each allow-listed team field found in the merged frame. -/
def team_rename_dict (merged : Df) : List (String × String) :=
  (if merged.cols.contains "name" then [("name", "team_name")] else []) ++
  (if merged.cols.contains "elo" then [("elo", "team_elo")] else []) ++
  strength_fields.filterMap (fun f =>
    if merged.cols.contains f then some (f, "team_" ++ f) else none)

/-- run_analysis.py:143-181: merge the allow-listed team fields from
`teams.csv` (left join on `team_code` = `code`, suffixes `('', '_team')`,
selecting `code`, `name`, `elo` and the strength metrics present in the
source), drop the `code` key column, then rename the team fields found in
the merged frame with a `team_` prefix; skipped when the teams frame is
empty or `team_code` is absent from the combined frame.  Only the
strength metrics are guarded by a presence check (run_analysis.py:151):
`Except.error` models the uncaught `KeyError` that
`teams_df[['code'] + team_fields]` raises when `code`, `name` or `elo`
is absent. -/
def merge_team_data (combined teams_df : Df) : Except String Df :=
  if !teams_df.isEmpty && combined.cols.contains "team_code" then
    (teams_df.select
        ("code" :: (["name", "elo"] ++
          strength_fields.filter (fun c => teams_df.cols.contains c)))).map (fun sel =>
      let merged := (combined.merge sel "team_code" "code" "" "_team").dropCol "code"
      if (team_rename_dict merged).isEmpty then merged
      else merged.renameCols (team_rename_dict merged))
  else Except.ok combined

/-- run_analysis.py:108-113: stamp a loaded stats frame with its source
`gameweek` id and the `season`. -/
def stampDf (df : Df) (gw : Int) (season : String) : Df :=
  (df.setCol "gameweek" (Value.int gw)).setCol "season" (Value.str season)

/-- run_analysis.py:183-187: `combined_df[combined_df['status'] != 'u']`.
Reading a missing `status` column raises an uncaught `KeyError`; on rows,
the elementwise `!=` keeps every row whose `status` cell is not exactly
the string `'u'` (absent / `NaN` and non-string cells compare unequal,
so they are kept). -/
def filterStatus (df : Df) : Except String Df :=
  if df.cols.contains "status" then
    Except.ok ⟨df.cols, df.rows.filter (fun r => !(cellR r "status").keyEq (Value.str "u"))⟩
  else Except.error "KeyError: status"

/-- `load_player_gameweek_stats` (run_analysis.py:85-191): load each
requested gameweek's stats file in request order (missing files skipped
with a warning), stamp and concatenate them, merge the player and team
reference data, and filter out rows whose `status` is `'u'`.
`Except.error` models an uncaught `KeyError`, whether raised by a
reference-table selection inside a merge step or by the status filter. -/
def load_player_gameweek_stats (src : DataSource) (gameweek_ids : List Int)
    (season : String) : Except String Df :=
  let dataframes := gameweek_ids.filterMap (fun gw =>
    (src.statsFile gw).map (fun df => stampDf df gw season))
  if dataframes.isEmpty then Except.ok Df.empty
  else
    Except.bind (merge_player_data (concatDfs dataframes) (load_players_data src gameweek_ids))
      (fun combined =>
        Except.bind (merge_team_data combined (load_teams_data src gameweek_ids)) filterStatus)

/-- Digit-string evaluation (`int(...)` over an all-digit char list). -/
def digitsVal (cs : List Char) : Option Nat :=
  cs.foldl (fun acc c =>
    acc.bind (fun n => if c.isDigit then some (n * 10 + (c.toNat - 48)) else none)) (some 0)

/-- Python `float(s)` on plain decimal strings (optional sign, digits,
optional fractional part); scientific notation is not modelled, no
stated property depends on it.  Written with `Rat.divInt` so that the
kernel can evaluate it. -/
def parseDecimal (s : String) : Option Rat :=
  let sc : Int × List Char :=
    match s.data with
    | '-' :: rest => (-1, rest)
    | '+' :: rest => (1, rest)
    | rest => (1, rest)
  let ip := sc.2.takeWhile (fun c => c != '.')
  let rest := sc.2.dropWhile (fun c => c != '.')
  let fpOpt : Option (List Char) :=
    match rest with
    | [] => some []
    | _ :: t => if t.contains '.' then none else some t
  match fpOpt with
  | none => none
  | some fp =>
    if ip.isEmpty && fp.isEmpty then none
    else
      match digitsVal ip, digitsVal fp with
      | some i, some f =>
        some (Rat.divInt (sc.1 * ((i : Int) * (10 : Int) ^ fp.length + (f : Int)))
          ((10 : Int) ^ fp.length))
      | _, _ => none

/-- Python's `round(x, 2)` over the rational model: round `x * 100` half
to even, divide by 100.  Written with `Rat.divInt` / `Rat.floor` so that
the kernel can evaluate it (`x * 100` is `divInt (x.num * 100) x.den`,
and the fractional part of `y` is `divInt (y.num - floor y * y.den) y.den`). -/
def round2 (q : Rat) : Rat :=
  let x := Rat.divInt (q.num * 100) (q.den : Int)
  let f := x.floor
  let r := Rat.divInt (x.num - f * (x.den : Int)) (x.den : Int)
  let n := if r < Rat.divInt 1 2 then f
    else if Rat.divInt 1 2 < r then f + 1
    else if f % 2 = 0 then f else f + 1
  Rat.divInt n 100

/-- The declared integer-typed fields of `PlayerGameweekStats`
(model.py:9-44). -/
def knownIntFields : List String :=
  ["id", "gameweek", "total_points", "minutes", "goals_scored", "assists",
   "clean_sheets", "goals_conceded", "bonus", "bps", "team_code",
   "team_strength", "team_strength_overall_home", "team_strength_overall_away",
   "team_strength_attack_home", "team_strength_attack_away",
   "team_strength_defence_home", "team_strength_defence_away"]

/-- The declared string-typed fields of `PlayerGameweekStats`. -/
def knownStrFields : List String :=
  ["first_name", "second_name", "web_name", "position", "season", "status",
   "news", "team_name"]

/-- The declared float-typed fields of `PlayerGameweekStats`, the targets
of the `round_floats` validator (model.py:49). -/
def knownFloatFields : List String := ["now_cost", "team_elo"]

/-- Pydantic lax coercion to `int`: ints pass, integral floats truncate,
numeric strings with integral value parse; everything else fails. -/
def coerceInt : Value → Option Value
  | .int n => some (.int n)
  | .float q => if q.den = 1 then some (.int q.num) else none
  | .str s => (parseDecimal s).bind (fun q => if q.den = 1 then some (.int q.num) else none)
  | .nan => none

/-- Pydantic lax coercion to `float`: ints widen, floats pass, numeric
strings parse via `float()`. -/
def coerceFloat : Value → Option Value
  | .int n => some (.float (n : Rat))
  | .float q => some (.float q)
  | .str s => (parseDecimal s).map (fun q => Value.float q)
  | .nan => none

/-- Pydantic v2 `str` fields do not coerce non-string input. -/
def coerceStr : Value → Option Value
  | .str s => some (.str s)
  | _ => none

/-- The `round_floats` before-validator (model.py:49-55): int and float
inputs become `round(float(v), 2)`; any other input passes through for
the subsequent field coercion. -/
def round_floats (v : Value) : Value :=
  match v with
  | .int n => .float (round2 (n : Rat))
  | .float q => .float (round2 q)
  | v => v

/-- The `round_extra_float_fields` after-validator (model.py:57-64),
per extra field: floats are rounded, everything else untouched. -/
def roundExtra : Value → Value
  | .float q => .float (round2 q)
  | v => v

/-- Validation of one supplied field of `PlayerGameweekStats`: the two
designated float fields run the rounding before-validator and then float
coercion; declared int / str fields coerce laxly; any other field is an
extra (`extra="allow"`), kept as given with its floats rounded by the
after-validator. -/
def validateField (k : String) (v : Value) : Option Value :=
  if knownFloatFields.contains k then coerceFloat (round_floats v)
  else if knownIntFields.contains k then coerceInt v
  else if knownStrFields.contains k then coerceStr v
  else some (roundExtra v)

/-- `row.to_dict()` followed by the NaN strip (run_analysis.py:283-285). -/
def rowDict (r : Row) : Row := r.filter (fun kv => !kv.2.isNan)

/-- `PlayerGameweekStats(**row_dict)` (model.py:5-64): every supplied
field must validate and the required `id`, `gameweek`, `season` fields
must be present; `none` models the pydantic `ValidationError` caught and
logged at run_analysis.py:286-291.  The validated record is the list of
its fields (absent fields stay absent). -/
def mkPlayerGameweekStats (row : Row) : Option Row :=
  match row.mapM (fun kv => (validateField kv.1 kv.2).map (fun v => (kv.1, v))) with
  | none => none
  | some vals =>
    if ((row.find? (fun kv => kv.1 == "id")).isSome
        && (row.find? (fun kv => kv.1 == "gameweek")).isSome
        && (row.find? (fun kv => kv.1 == "season")).isSome : Bool)
    then some vals else none

/-- Python `str()` over the group-key scalars, as used by
`f"{player_id}-{position}"` (run_analysis.py:277): ints and strings
render as in Python; the rendering of floats is abstracted by the `Rat`
rendering (no stated property depends on it); group keys are never
`NaN`. -/
def fmtValue : Value → String
  | .int n => toString n
  | .str s => s
  | .float q => toString q
  | .nan => "nan"

/-- First-occurrence deduplication of the group keys. -/
def firstOccur : List (Value × Value) → List (Value × Value)
  | [] => []
  | a :: t => a :: firstOccur (t.filter (fun x => x != a))
termination_by l => l.length
decreasing_by
  simp only [List.length_cons]
  exact Nat.lt_succ_of_le (List.length_filter_le _ _)

/-- The distinct `(id, position)` group keys of
`df.groupby(['id', 'position'])` (run_analysis.py:275): rows whose `id`
or `position` is `NaN` are dropped by `groupby`.  pandas emits groups in
sorted key order; modelled as order of first appearance, which no stated
property observes. -/
def groupKeys (df : Df) : List (Value × Value) :=
  firstOccur (df.rows.filterMap (fun r =>
    let k := (cellR r "id", cellR r "position")
    if k.1.isNan || k.2.isNan then none else some k))

/-- run_analysis.py:274-296: group the rows by `(id, position)`, convert
each row of a group through `PlayerGameweekStats` (conversion failures
are dropped with a warning), key the groups by `"{id}-{position}"`, and
omit groups whose conversions all fail. -/
def group_player_stats (df : Df) : List (String × List Row) :=
  (groupKeys df).filterMap (fun k =>
    let group := df.rows.filter (fun r =>
      cellR r "id" == k.1 && cellR r "position" == k.2)
    let stats_list := group.filterMap (fun r => mkPlayerGameweekStats (rowDict r))
    if stats_list.isEmpty then none
    else some (fmtValue k.1 ++ "-" ++ fmtValue k.2, stats_list))

/-- `FPLAnalysisResponse` (model.py:67-93): `player_stats` is an
insertion-ordered mapping, modelled as an association list. -/
structure FPLAnalysisResponse where
  past_gameweeks : List Int
  next_gameweek : Option Int
  player_stats : List (String × List Row)
deriving DecidableEq

/-- `analyse_fpl` (run_analysis.py:225-302).  The configured data
directory is `../FPL-Core-Insights/data/2025-2026`, so the path-derived
season is `"2025-2026"`.  `Except.error` models an uncaught exception
escaping the entry point. -/
def analyse_fpl (src : DataSource) : Except String FPLAnalysisResponse :=
  let recent_gameweeks := get_recent_finished_gameweeks src.schedule 5
  if recent_gameweeks.isEmpty then
    Except.ok ⟨[], none, []⟩
  else
    let next_gameweek := get_next_gameweek src.schedule
    match load_player_gameweek_stats src recent_gameweeks "2025-2026" with
    | Except.error e => Except.error e
    | Except.ok player_stats_df =>
      if player_stats_df.isEmpty then
        Except.ok ⟨recent_gameweeks, next_gameweek, []⟩
      else if !player_stats_df.cols.contains "position" then
        Except.ok ⟨recent_gameweeks, next_gameweek, []⟩
      else
        Except.ok ⟨recent_gameweeks, next_gameweek, group_player_stats player_stats_df⟩

/-- A one-row stats snapshot with no `status` column. -/
def dfNoStatus : Df := ⟨["id"], [[("id", Value.int 7)]]⟩

/-- A source with a single stats file (gameweek 1) lacking `status`. -/
def srcMissingStatus : DataSource :=
  ⟨[], fun i => if i == 1 then some dfNoStatus else none, fun _ => none, fun _ => none⟩

/-- A schedule with no finished gameweek but an explicit `is_next` flag,
and no data files. -/
def srcNoFinished : DataSource :=
  ⟨[⟨6, "False", "False", "True", 100⟩], fun _ => none, fun _ => none, fun _ => none⟩

/-- A stats frame that itself carries a `player_id` column. -/
def dfStatsClash : Df := ⟨["id", "player_id"],
  [[("id", Value.int 1), ("player_id", Value.int 99)]]⟩

/-- A players reference table whose entity 1 is a midfielder of team 3. -/
def dfPlayersRef : Df := ⟨["player_id", "position", "team_code"],
  [[("player_id", Value.int 1), ("position", Value.str "MID"), ("team_code", Value.int 3)]]⟩

/-- A single-column, single-row stats frame. -/
def dfOneStat : Df := ⟨["id"], [[("id", Value.int 1)]]⟩

/-- A stats frame that already carries a `name` field. -/
def dfStatsName : Df := ⟨["id", "team_code", "name"],
  [[("id", Value.int 1), ("team_code", Value.int 7), ("name", Value.str "Player Name")]]⟩

/-- A teams reference table: team 7 is Arsenal with rating 5. -/
def dfTeamsRef : Df := ⟨["code", "name", "elo"],
  [[("code", Value.int 7), ("name", Value.str "Arsenal"),
    ("elo", Value.float (Rat.divInt 5 1))]]⟩

/-- A stats frame sharing no label with the team fields. -/
def dfStatsPlain : Df := ⟨["id", "team_code"],
  [[("id", Value.int 1), ("team_code", Value.int 7)]]⟩

/-- String test on cell values. -/
def Value.isStr : Value → Bool
  | .str _ => true
  | _ => false

/-- `q` has at most 2 decimal places: `q * 100` is an integer.  Written
with `Rat.divInt` so that the kernel can evaluate it. -/
def roundedTo2dp (q : Rat) : Prop := (Rat.divInt (q.num * 100) (q.den : Int)).den = 1

instance roundedTo2dp.dec (q : Rat) : Decidable (roundedTo2dp q) :=
  inferInstanceAs (Decidable ((Rat.divInt (q.num * 100) (q.den : Int)).den = 1))

/-- A row whose `now_cost` arrives as the numeric string `"2.675"`. -/
def rowStringCost : Row :=
  [("id", Value.int 1), ("gameweek", Value.int 1),
   ("season", Value.str "2025-2026"), ("now_cost", Value.str "2.675")]

/-- A row whose float-typed fields carry numeric values. -/
def rowFloatCost : Row :=
  [("id", Value.int 3), ("gameweek", Value.int 2), ("season", Value.str "2025-2026"),
   ("now_cost", Value.float (Rat.divInt 4555 1000)),
   ("expected_goals", Value.float (Rat.divInt 1 3))]

/-- A frame whose only row has a missing `position`. -/
def dfNanPos : Df := ⟨["id", "position"], [[("id", Value.int 1), ("position", Value.nan)]]⟩

/-- A frame whose only row has an absent `status`. -/
def dfNanStatus : Df := ⟨["status"], [[("status", Value.nan)]]⟩

/-- C1: for every schedule input and every count,
`get_recent_finished_gameweeks` returns exactly the ids of the records
whose `finished` and `data_checked` fields both parse to true, sorted by
`deadline_time` descending, truncated to the first `count` ids (fewer if
fewer qualify). -/
theorem recent_finished_gameweeks_spec (records : List GameweekRecord) (count : Nat) :
    ∃ s : List GameweekRecord,
      List.Perm s (records.filter (fun r => parsePyBool r.finished && parsePyBool r.data_checked)) ∧
      List.Sorted (fun a b => b.deadline_time ≤ a.deadline_time) s ∧
      get_recent_finished_gameweeks records count = (s.take count).map (fun r => r.id) ∧
      (get_recent_finished_gameweeks records count).length =
        min count
          (records.filter (fun r => parsePyBool r.finished && parsePyBool r.data_checked)).length := by
  refine ⟨List.insertionSort (fun a b => b.deadline_time ≤ a.deadline_time)
      (records.filter (fun r => parsePyBool r.finished && parsePyBool r.data_checked)),
    List.perm_insertionSort _ _, List.sorted_insertionSort _ _, rfl, ?_⟩
  unfold get_recent_finished_gameweeks
  rw [List.length_map, List.length_take, (List.perm_insertionSort _ _).length_eq]

/-- C2: `get_next_gameweek` returns the id of a record flagged
`is_next` when one exists; otherwise the id of an unfinished record with
the earliest `deadline_time`; and `none` when neither exists. -/
theorem next_gameweek_spec (records : List GameweekRecord) :
    ((∃ r ∈ records, parsePyBool r.is_next = true) →
      ∃ r ∈ records, parsePyBool r.is_next = true ∧ get_next_gameweek records = some r.id) ∧
    ((∀ r ∈ records, parsePyBool r.is_next = false) →
      (∃ r ∈ records, parsePyBool r.finished = false) →
      ∃ r ∈ records, parsePyBool r.finished = false ∧ get_next_gameweek records = some r.id ∧
        ∀ r' ∈ records, parsePyBool r'.finished = false →
          r.deadline_time ≤ r'.deadline_time) ∧
    ((∀ r ∈ records, parsePyBool r.is_next = false ∧ parsePyBool r.finished = true) →
      get_next_gameweek records = none) := by
  refine ⟨?_, ?_, ?_⟩
  · rintro ⟨r0, hr0, hnext⟩
    have hmem : r0 ∈ records.filter (fun r => parsePyBool r.is_next) :=
      List.mem_filter.mpr ⟨hr0, hnext⟩
    unfold get_next_gameweek
    cases hf : records.filter (fun r => parsePyBool r.is_next) with
    | nil => rw [hf] at hmem; exact absurd hmem (List.not_mem_nil r0)
    | cons r rest =>
      have hr : r ∈ records.filter (fun r => parsePyBool r.is_next) := by
        rw [hf]; exact List.mem_cons_self r rest
      obtain ⟨hrr, hrn⟩ := List.mem_filter.mp hr
      exact ⟨r, hrr, hrn, rfl⟩
  · intro hnone hex
    have hf : records.filter (fun r => parsePyBool r.is_next) = [] := by
      rw [List.filter_eq_nil_iff]
      intro r hr
      simp [hnone r hr]
    obtain ⟨r0, hr0, hunf⟩ := hex
    have hmem : r0 ∈ records.filter (fun r => !parsePyBool r.finished) :=
      List.mem_filter.mpr ⟨hr0, by simp [hunf]⟩
    have hperm := List.perm_insertionSort (fun a b : GameweekRecord => a.deadline_time ≤ b.deadline_time)
      (records.filter (fun r => !parsePyBool r.finished))
    have hsorted := List.sorted_insertionSort (fun a b : GameweekRecord => a.deadline_time ≤ b.deadline_time)
      (records.filter (fun r => !parsePyBool r.finished))
    unfold get_next_gameweek
    rw [hf]
    cases hs : List.insertionSort (fun a b : GameweekRecord => a.deadline_time ≤ b.deadline_time)
        (records.filter (fun r => !parsePyBool r.finished)) with
    | nil =>
      rw [hs] at hperm
      rw [← hperm.mem_iff] at hmem
      exact absurd hmem (List.not_mem_nil r0)
    | cons r rest =>
      have hrmem : r ∈ records.filter (fun r => !parsePyBool r.finished) := by
        rw [← hperm.mem_iff, hs]; exact List.mem_cons_self r rest
      obtain ⟨hrr, hrf⟩ := List.mem_filter.mp hrmem
      refine ⟨r, hrr, by simpa using hrf, rfl, ?_⟩
      intro r' hr' hr'f
      have hmem' : r' ∈ records.filter (fun r => !parsePyBool r.finished) :=
        List.mem_filter.mpr ⟨hr', by simp [hr'f]⟩
      rw [← hperm.mem_iff, hs] at hmem'
      rcases List.mem_cons.mp hmem' with h | h
      · subst h; exact Nat.le_refl _
      · rw [hs] at hsorted
        exact List.rel_of_sorted_cons hsorted r' h
  · intro hall
    have hf : records.filter (fun r => parsePyBool r.is_next) = [] := by
      rw [List.filter_eq_nil_iff]
      intro r hr
      simp [(hall r hr).1]
    have hu : records.filter (fun r => !parsePyBool r.finished) = [] := by
      rw [List.filter_eq_nil_iff]
      intro r hr
      simp [(hall r hr).2]
    unfold get_next_gameweek
    rw [hf, hu]
    rfl

/-- Concrete instantiation of `next_gameweek_spec`: a schedule whose
second record is flagged `is_next` makes `get_next_gameweek` return it. -/
theorem next_gameweek_spec_witness :
    ∃ r ∈ scheduleW, parsePyBool r.is_next = true ∧
      get_next_gameweek scheduleW = some r.id :=
  (next_gameweek_spec scheduleW).1
    ⟨⟨2, "False", "False", "True", 20⟩, by decide, by decide⟩

/-- On a descending candidate list, `loadFirst` returns the file of some
candidate such that every strictly larger candidate is absent. -/
theorem loadFirst_first_hit (file : Int → Option Df) :
    ∀ s : List Int, List.Sorted (fun a b : Int => b ≤ a) s →
    (∃ i ∈ s, (file i).isSome) →
    ∃ i ∈ s, file i = some (loadFirst file s) ∧ ∀ j ∈ s, i < j → file j = none := by
  intro s
  induction s with
  | nil =>
    rintro _ ⟨i, hi, _⟩
    exact absurd hi (List.not_mem_nil i)
  | cons a t ih =>
    intro hsorted hex
    cases hfa : file a with
    | some df =>
      refine ⟨a, List.mem_cons_self a t, by simp [loadFirst, hfa], ?_⟩
      intro j hj hlt
      rcases List.mem_cons.mp hj with rfl | hjt
      · exact absurd hlt (lt_irrefl _)
      · exact absurd hlt (not_lt.mpr (List.rel_of_sorted_cons hsorted j hjt))
    | none =>
      have hex' : ∃ i ∈ t, (file i).isSome := by
        rcases hex with ⟨i, hi, hsome⟩
        rcases List.mem_cons.mp hi with rfl | hit
        · rw [hfa] at hsome; simp at hsome
        · exact ⟨i, hit, hsome⟩
      obtain ⟨i, hit, heq, hall⟩ := ih (List.sorted_cons.mp hsorted).2 hex'
      refine ⟨i, List.mem_cons_of_mem a hit, by simpa [loadFirst, hfa] using heq, ?_⟩
      intro j hj hlt
      rcases List.mem_cons.mp hj with rfl | hjt
      · exact hfa
      · exact hall j hjt hlt

/-- When every candidate is absent, `loadFirst` returns the empty frame. -/
theorem loadFirst_all_none (file : Int → Option Df) :
    ∀ s : List Int, (∀ i ∈ s, file i = none) → loadFirst file s = Df.empty := by
  intro s
  induction s with
  | nil => intro _; rfl
  | cons a t ih =>
    intro h
    have hfa := h a (List.mem_cons_self a t)
    simpa [loadFirst, hfa] using ih (fun i hi => h i (List.mem_cons_of_mem a hi))

/-- C9: `load_players_data` and `load_teams_data` scan the candidate
gameweek ids from most recent to least recent and return the first
reference table that reads successfully; when no candidate has a
readable snapshot, each returns an empty frame. -/
theorem load_ref_data_spec (src : DataSource) (gameweek_ids : List Int) :
    ((∃ i ∈ gameweek_ids, (src.playersFile i).isSome) →
      ∃ i ∈ gameweek_ids, src.playersFile i = some (load_players_data src gameweek_ids) ∧
        ∀ j ∈ gameweek_ids, i < j → src.playersFile j = none) ∧
    ((∀ i ∈ gameweek_ids, src.playersFile i = none) →
      load_players_data src gameweek_ids = Df.empty) ∧
    ((∃ i ∈ gameweek_ids, (src.teamsFile i).isSome) →
      ∃ i ∈ gameweek_ids, src.teamsFile i = some (load_teams_data src gameweek_ids) ∧
        ∀ j ∈ gameweek_ids, i < j → src.teamsFile j = none) ∧
    ((∀ i ∈ gameweek_ids, src.teamsFile i = none) →
      load_teams_data src gameweek_ids = Df.empty) := by
  have hperm := List.perm_insertionSort (fun a b : Int => b ≤ a) gameweek_ids
  have hsorted := List.sorted_insertionSort (fun a b : Int => b ≤ a) gameweek_ids
  refine ⟨?_, ?_, ?_, ?_⟩
  · rintro ⟨i, hi, hsome⟩
    obtain ⟨i', hi', heq, hall⟩ := loadFirst_first_hit src.playersFile _ hsorted
      ⟨i, hperm.mem_iff.mpr hi, hsome⟩
    exact ⟨i', hperm.mem_iff.mp hi', heq,
      fun j hj hlt => hall j (hperm.mem_iff.mpr hj) hlt⟩
  · intro hall
    exact loadFirst_all_none src.playersFile _ (fun i hi => hall i (hperm.mem_iff.mp hi))
  · rintro ⟨i, hi, hsome⟩
    obtain ⟨i', hi', heq, hall⟩ := loadFirst_first_hit src.teamsFile _ hsorted
      ⟨i, hperm.mem_iff.mpr hi, hsome⟩
    exact ⟨i', hperm.mem_iff.mp hi', heq,
      fun j hj hlt => hall j (hperm.mem_iff.mpr hj) hlt⟩
  · intro hall
    exact loadFirst_all_none src.teamsFile _ (fun i hi => hall i (hperm.mem_iff.mp hi))

/-- Concrete instantiation of `load_ref_data_spec`: with candidates
`[1, 2]` and a players snapshot only at gameweek 2, that snapshot is the
one returned. -/
theorem load_ref_data_spec_witness :
    ∃ i ∈ [(1 : Int), 2], srcW.playersFile i = some (load_players_data srcW [1, 2]) ∧
      ∀ j ∈ [(1 : Int), 2], i < j → srcW.playersFile j = none :=
  (load_ref_data_spec srcW [1, 2]).1 ⟨2, by decide, by decide⟩

/-- `List.contains` agrees with membership (strings). -/
theorem contains_true_iff (l : List String) (a : String) : l.contains a = true ↔ a ∈ l := by
  simp [List.contains, List.elem_iff]

/-- `List.contains` disagrees with membership exactly on non-members. -/
theorem contains_false_iff (l : List String) (a : String) : l.contains a = false ↔ a ∉ l := by
  simp [List.contains]

/-- The column index of a merge result, unfolded. -/
theorem Df.merge_cols (left right : Df) (lk rk ls rs : String) :
    (Df.merge left right lk rk ls rs).cols =
      left.cols.map (fun c => if right.cols.contains c then c ++ ls else c) ++
      right.cols.map (fun c => if left.cols.contains c then c ++ rs else c) := rfl

/-- The column index of a reindexing, unfolded. -/
theorem Df.reindexCols_cols (df : Df) (cs : List String) : (df.reindexCols cs).cols = cs := rfl

/-- The rows of a reindexing, unfolded. -/
theorem Df.reindexCols_rows (df : Df) (cs : List String) :
    (df.reindexCols cs).rows = df.rows.map (fun r => cs.map (fun c => (c, cellR r c))) := rfl

/-- List-label selection succeeds exactly on present labels, yielding the
reindexed projection. -/
theorem select_ok_of_mem (df : Df) (cs : List String) (h : ∀ c ∈ cs, c ∈ df.cols) :
    df.select cs = Except.ok (df.reindexCols cs) := by
  unfold Df.select
  rw [if_pos (List.all_eq_true.mpr (fun c hc => (contains_true_iff _ _).mpr (h c hc)))]

/-- List-label selection raises `KeyError` when some label is absent. -/
theorem select_error_of_not_mem (df : Df) (cs : List String)
    (h : ∃ c ∈ cs, c ∉ df.cols) :
    df.select cs = Except.error "KeyError: columns not in index" := by
  unfold Df.select
  obtain ⟨c, hc, hcnot⟩ := h
  rw [if_neg (fun hall =>
    hcnot ((contains_true_iff _ _).mp (List.all_eq_true.mp hall c hc)))]

/-- A successful selection is the reindexed projection. -/
theorem select_ok_shape (df : Df) (cs : List String) (out : Df)
    (h : df.select cs = Except.ok out) : out = df.reindexCols cs := by
  unfold Df.select at h
  split at h
  · exact (Except.ok.inj h).symm
  · exact absurd h (by simp)

/-- The column index after a column drop, unfolded. -/
theorem Df.dropCol_cols (df : Df) (c : String) :
    (df.dropCol c).cols = df.cols.filter (fun c0 => c0 != c) := rfl

/-- The column index after a rename, unfolded. -/
theorem Df.renameCols_cols (df : Df) (m : List (String × String)) :
    (df.renameCols m).cols = df.cols.map (renameKey m) := rfl

/-- Membership in the column index after `setCol`, for another label. -/
theorem setCol_mem_cols {df : Df} {x c : String} {v : Value} (hne : c ≠ x) :
    c ∈ (df.setCol x v).cols ↔ c ∈ df.cols := by
  unfold Df.setCol
  split
  · exact Iff.rfl
  · simp [hne]

/-- Membership in the folded column union built by `concatDfs`. -/
theorem concat_foldl_cols_mem (c : String) :
    ∀ (dfs : List Df) (acc : List String),
      c ∈ dfs.foldl (fun acc df => acc ++ df.cols.filter (fun c0 => !acc.contains c0)) acc ↔
        c ∈ acc ∨ ∃ df ∈ dfs, c ∈ df.cols := by
  intro dfs
  induction dfs with
  | nil => intro acc; simp
  | cons d t ih =>
    intro acc
    rw [List.foldl_cons, ih]
    constructor
    · rintro (h | h)
      · rcases List.mem_append.mp h with h | h
        · exact Or.inl h
        · exact Or.inr ⟨d, List.mem_cons_self d t, (List.mem_filter.mp h).1⟩
      · obtain ⟨df, hdf, hc⟩ := h
        exact Or.inr ⟨df, List.mem_cons_of_mem d hdf, hc⟩
    · rintro (h | ⟨df, hdf, hc⟩)
      · exact Or.inl (List.mem_append.mpr (Or.inl h))
      · rcases List.mem_cons.mp hdf with rfl | hdf'
        · by_cases hacc : c ∈ acc
          · exact Or.inl (List.mem_append.mpr (Or.inl hacc))
          · refine Or.inl (List.mem_append.mpr (Or.inr (List.mem_filter.mpr ⟨hc, ?_⟩)))
            simp [contains_false_iff, hacc]
        · exact Or.inr ⟨df, hdf', hc⟩

/-- A column appears in a concatenation exactly when a source frame has it. -/
theorem concatDfs_cols_mem (dfs : List Df) (c : String) :
    c ∈ (concatDfs dfs).cols ↔ ∃ df ∈ dfs, c ∈ df.cols := by
  unfold concatDfs
  simpa using concat_foldl_cols_mem c dfs []

/-- Occurrence count through a map whose images hit `b` only at `b`. -/
theorem count_map_of_iff {f : String → String} {l : List String} {b : String}
    (h : ∀ a ∈ l, (f a = b ↔ a = b)) : (l.map f).count b = l.count b := by
  induction l with
  | nil => rfl
  | cons a t ih =>
    rw [List.map_cons, List.count_cons, List.count_cons,
      ih (fun a0 ha0 => h a0 (List.mem_cons_of_mem _ ha0))]
    have ha := h a (List.mem_cons_self _ _)
    by_cases hab : a = b
    · subst hab
      simp [ha.mpr rfl]
    · have hfa : f a ≠ b := fun hf => hab (ha.mp hf)
      simp [hab, hfa]

/-- Zero occurrences when every element differs from `b`. -/
theorem count_eq_zero_of_forall_ne {l : List String} {b : String} (h : ∀ a ∈ l, a ≠ b) :
    l.count b = 0 :=
  List.count_eq_zero.mpr (fun hb => h b hb rfl)

/-- Dropping a different column keeps the occurrence count. -/
theorem dropCol_count (df : Df) (x c : String) (h : c ≠ x) :
    (df.dropCol x).cols.count c = df.cols.count c := by
  rw [Df.dropCol_cols]
  exact List.count_filter (bne_iff_ne.mpr h)

/-- A rename whose dictionary never mentions `c` (as key or value) keeps
the occurrence count of `c`. -/
theorem renameCols_count (df : Df) (m : List (String × String)) (c : String)
    (h : ∀ pr ∈ m, pr.1 ≠ c ∧ pr.2 ≠ c) :
    (df.renameCols m).cols.count c = df.cols.count c := by
  rw [Df.renameCols_cols]
  apply count_map_of_iff
  intro a _
  unfold renameKey
  cases hfind : List.find? (fun p => p.1 == a) m with
  | none => exact Iff.rfl
  | some pr =>
    obtain ⟨h1, h2⟩ := h pr (List.mem_of_find?_eq_some hfind)
    have hpa : pr.1 = a := by simpa using List.find?_some hfind
    subst hpa
    exact ⟨fun hc => absurd hc h2, fun hc => absurd hc h1⟩

/-- A merge whose right columns never produce `c` (plain or suffixed)
keeps the occurrence count of `c` from the left frame. -/
theorem merge_count (left right : Df) (lk rk ls rs : String) (c : String)
    (hr : ∀ a ∈ right.cols, a ≠ c ∧ a ++ rs ≠ c)
    (hl : ∀ a ∈ right.cols, a ++ ls ≠ c) :
    (left.merge right lk rk ls rs).cols.count c = left.cols.count c := by
  rw [Df.merge_cols, List.count_append]
  have h0 : List.count c
      (right.cols.map (fun c0 => if left.cols.contains c0 then c0 ++ rs else c0)) = 0 := by
    apply count_eq_zero_of_forall_ne
    intro a ha
    obtain ⟨a0, ha0, rfl⟩ := List.mem_map.mp ha
    obtain ⟨h1, h2⟩ := hr a0 ha0
    split
    · exact h2
    · exact h1
  rw [h0, Nat.add_zero]
  apply count_map_of_iff
  intro a _
  by_cases hmem : a ∈ right.cols
  · rw [if_pos ((contains_true_iff _ _).mpr hmem)]
    exact ⟨fun h => absurd h (hl a hmem), fun h => absurd h ((hr a hmem).1)⟩
  · rw [if_neg (by simp [contains_true_iff, hmem])]

/-- A column that is none of the player reference columns (plain or
suffixed) and not the dropped key survives the player merge with its
occurrence count intact. -/
theorem merge_player_data_count (left p : Df) (c : String) (out : Df)
    (hc1 : ∀ a ∈ (["player_id", "position", "team_code"] : List String),
      a ≠ c ∧ a ++ "_x" ≠ c ∧ a ++ "_y" ≠ c)
    (hc2 : c ≠ "player_id")
    (hok : merge_player_data left p = Except.ok out) :
    out.cols.count c = left.cols.count c := by
  unfold merge_player_data at hok
  split at hok
  · cases hsel : p.select ["player_id", "position", "team_code"] with
    | error e =>
      rw [hsel] at hok
      exact absurd hok (by simp [Except.map])
    | ok sel =>
      rw [hsel] at hok
      obtain rfl := select_ok_shape p _ sel hsel
      have hok' : Except.ok ((left.merge (p.reindexCols ["player_id", "position", "team_code"])
          "id" "player_id" "_x" "_y").dropCol "player_id") = Except.ok out := hok
      obtain rfl := Except.ok.inj hok'
      rw [dropCol_count _ _ _ hc2]
      apply merge_count
      · intro a ha
        rw [Df.reindexCols_cols] at ha
        exact ⟨(hc1 a ha).1, (hc1 a ha).2.2⟩
      · intro a ha
        rw [Df.reindexCols_cols] at ha
        exact (hc1 a ha).2.1
  · have hok' : Except.ok left = Except.ok out := hok
    obtain rfl := Except.ok.inj hok'
    rfl

/-- Every entry of the team rename dictionary is an allow-listed field
paired with its `team_`-prefixed name. -/
theorem team_rename_dict_mem (merged : Df) (pr : String × String)
    (hpr : pr ∈ team_rename_dict merged) :
    pr = ("name", "team_name") ∨ pr = ("elo", "team_elo") ∨
      ∃ f ∈ strength_fields, pr = (f, "team_" ++ f) := by
  unfold team_rename_dict at hpr
  rcases List.mem_append.mp hpr with hpr' | hpr'
  · rcases List.mem_append.mp hpr' with hpr'' | hpr''
    · split at hpr''
      · exact Or.inl (List.mem_singleton.mp hpr'')
      · exact absurd hpr'' (List.not_mem_nil pr)
    · split at hpr''
      · exact Or.inr (Or.inl (List.mem_singleton.mp hpr''))
      · exact absurd hpr'' (List.not_mem_nil pr)
  · obtain ⟨f, hf, heq⟩ := List.mem_filterMap.mp hpr'
    split at heq
    · exact Or.inr (Or.inr ⟨f, hf, (Option.some.inj heq).symm⟩)
    · exact absurd heq (by simp)

/-- A column that is none of the team reference columns (plain or
suffixed), none of the `team_`-prefixed rename targets, and not the
dropped key survives the team merge with its occurrence count intact. -/
theorem merge_team_data_count (left t : Df) (c : String) (out : Df)
    (h1 : ∀ a ∈ ("code" :: "name" :: "elo" :: strength_fields), a ≠ c ∧ a ++ "_team" ≠ c)
    (h2 : c ≠ "code")
    (h3 : "team_name" ≠ c ∧ "team_elo" ≠ c ∧ ∀ f ∈ strength_fields, "team_" ++ f ≠ c)
    (hok : merge_team_data left t = Except.ok out) :
    out.cols.count c = left.cols.count c := by
  unfold merge_team_data at hok
  split at hok
  · cases hsel : t.select ("code" :: (["name", "elo"] ++
        strength_fields.filter (fun c0 => t.cols.contains c0))) with
    | error e =>
      rw [hsel] at hok
      exact absurd hok (by simp [Except.map])
    | ok sel =>
      rw [hsel] at hok
      obtain rfl := select_ok_shape t _ sel hsel
      have hok' : Except.ok
          (if (team_rename_dict ((left.merge (t.reindexCols ("code" :: (["name", "elo"] ++
              strength_fields.filter (fun c0 => t.cols.contains c0))))
              "team_code" "code" "" "_team").dropCol "code")).isEmpty = true then
            ((left.merge (t.reindexCols ("code" :: (["name", "elo"] ++
              strength_fields.filter (fun c0 => t.cols.contains c0))))
              "team_code" "code" "" "_team").dropCol "code")
          else
            ((left.merge (t.reindexCols ("code" :: (["name", "elo"] ++
              strength_fields.filter (fun c0 => t.cols.contains c0))))
              "team_code" "code" "" "_team").dropCol "code").renameCols
              (team_rename_dict ((left.merge (t.reindexCols ("code" :: (["name", "elo"] ++
                strength_fields.filter (fun c0 => t.cols.contains c0))))
                "team_code" "code" "" "_team").dropCol "code"))) = Except.ok out := hok
      obtain rfl := Except.ok.inj hok'
      have hsub : ∀ a ∈ ("code" :: (["name", "elo"] ++
          strength_fields.filter (fun c0 => t.cols.contains c0))),
          a ∈ ("code" :: "name" :: "elo" :: strength_fields) := by
        intro a ha
        rcases List.mem_cons.mp ha with rfl | ha'
        · exact List.mem_cons_self _ _
        · rcases List.mem_append.mp ha' with h | h
          · rcases List.mem_cons.mp h with rfl | h'
            · exact List.mem_cons_of_mem _ (List.mem_cons_self _ _)
            · rcases List.mem_cons.mp h' with rfl | h''
              · exact List.mem_cons_of_mem _ (List.mem_cons_of_mem _ (List.mem_cons_self _ _))
              · exact absurd h'' (List.not_mem_nil a)
          · exact List.mem_cons_of_mem _ (List.mem_cons_of_mem _ (List.mem_cons_of_mem _
              (List.mem_filter.mp h).1))
      have hM : ((left.merge (t.reindexCols ("code" :: (["name", "elo"] ++
          strength_fields.filter (fun c0 => t.cols.contains c0))))
          "team_code" "code" "" "_team").dropCol "code").cols.count c = left.cols.count c := by
        rw [dropCol_count _ _ _ h2]
        apply merge_count
        · intro a ha
          rw [Df.reindexCols_cols] at ha
          exact ⟨(h1 a (hsub a ha)).1, (h1 a (hsub a ha)).2⟩
        · intro a ha
          rw [Df.reindexCols_cols] at ha
          rw [String.append_empty]
          exact (h1 a (hsub a ha)).1
      split
      · exact hM
      · rw [renameCols_count]
        · exact hM
        · intro pr hpr
          rcases team_rename_dict_mem _ pr hpr with rfl | rfl | ⟨f, hf, rfl⟩
          · exact ⟨(h1 "name" (by simp)).1, h3.1⟩
          · exact ⟨(h1 "elo" (by simp)).1, h3.2.1⟩
          · exact ⟨(h1 f (by simp [hf])).1, h3.2.2 f hf⟩
  · have hok' : Except.ok left = Except.ok out := hok
    obtain rfl := Except.ok.inj hok'
    rfl

/-- The stamped frame has a column `c` (other than the stamp columns)
exactly when the source frame has it. -/
theorem stampDf_mem_cols {df : Df} {gw : Int} {season : String} {c : String}
    (h1 : c ≠ "gameweek") (h2 : c ≠ "season") :
    c ∈ (stampDf df gw season).cols ↔ c ∈ df.cols := by
  unfold stampDf
  rw [setCol_mem_cols h2, setCol_mem_cols h1]

/-- The player merge succeeds when the players frame is empty or carries
all three selected labels. -/
theorem merge_player_data_ok (left p : Df)
    (hp : p.isEmpty = true ∨
      ∀ c ∈ (["player_id", "position", "team_code"] : List String), c ∈ p.cols) :
    ∃ out, merge_player_data left p = Except.ok out := by
  unfold merge_player_data
  cases he : p.isEmpty with
  | true =>
    rw [if_neg (show ¬((!true) = true) by decide)]
    exact ⟨left, rfl⟩
  | false =>
    rcases hp with h | h
    · rw [he] at h
      exact absurd h (by decide)
    · rw [if_pos (show (!false) = true from rfl), select_ok_of_mem p _ h]
      exact ⟨_, rfl⟩

/-- The team merge succeeds when the teams frame is empty or carries the
three unguarded labels (`code`, `name`, `elo`). -/
theorem merge_team_data_ok (left t : Df)
    (ht : t.isEmpty = true ∨
      ∀ c ∈ (["code", "name", "elo"] : List String), c ∈ t.cols) :
    ∃ out, merge_team_data left t = Except.ok out := by
  unfold merge_team_data
  cases hg : (!t.isEmpty && left.cols.contains "team_code") with
  | false =>
    rw [if_neg (show ¬(false = true) by decide)]
    exact ⟨left, rfl⟩
  | true =>
    rw [if_pos (show true = true from rfl)]
    have hemp : t.isEmpty = false := by
      cases he : t.isEmpty with
      | false => rfl
      | true => rw [he] at hg; simp at hg
    rcases ht with h | h
    · rw [hemp] at h
      exact absurd h (by decide)
    · have hmem : ∀ c ∈ ("code" :: (["name", "elo"] ++
          strength_fields.filter (fun c0 => t.cols.contains c0))), c ∈ t.cols := by
        intro c hc
        rcases List.mem_cons.mp hc with rfl | hc'
        · exact h "code" (by simp)
        · rcases List.mem_append.mp hc' with h0 | h0
          · rcases List.mem_cons.mp h0 with rfl | h1
            · exact h "name" (by simp)
            · rcases List.mem_cons.mp h1 with rfl | h2
              · exact h "elo" (by simp)
              · exact absurd h2 (List.not_mem_nil c)
          · exact (contains_true_iff _ _).mp (List.mem_filter.mp h0).2
      rw [select_ok_of_mem t _ hmem]
      exact ⟨_, rfl⟩

/-- C10: when at least one per-gameweek stats file is loaded but none of
the loaded stats files carries a `status` column,
`load_player_gameweek_stats` raises an uncaught `KeyError` instead of
passing the rows through; and when the loaded reference tables do not
themselves make a merge-step selection raise first (each is empty or
carries its selected labels), the error is precisely the status filter's
`KeyError` on its unconditional read of the `status` column. -/
theorem load_stats_missing_status_raises (src : DataSource) (gameweek_ids : List Int)
    (season : String)
    (hsome : ∃ gw ∈ gameweek_ids, (src.statsFile gw).isSome)
    (hnostatus : ∀ gw ∈ gameweek_ids, ∀ df, src.statsFile gw = some df → "status" ∉ df.cols) :
    (∃ e, load_player_gameweek_stats src gameweek_ids season = Except.error e) ∧
    (((load_players_data src gameweek_ids).isEmpty = true ∨
        ∀ c ∈ (["player_id", "position", "team_code"] : List String),
          c ∈ (load_players_data src gameweek_ids).cols) →
      ((load_teams_data src gameweek_ids).isEmpty = true ∨
        ∀ c ∈ (["code", "name", "elo"] : List String),
          c ∈ (load_teams_data src gameweek_ids).cols) →
      load_player_gameweek_stats src gameweek_ids season =
        Except.error "KeyError: status") := by
  obtain ⟨gw0, hgw0, hs0⟩ := hsome
  obtain ⟨df0, hdf0⟩ := Option.isSome_iff_exists.mp hs0
  have hmem0 : stampDf df0 gw0 season ∈ gameweek_ids.filterMap (fun gw =>
      (src.statsFile gw).map (fun df => stampDf df gw season)) :=
    List.mem_filterMap.mpr ⟨gw0, hgw0, by rw [hdf0]; rfl⟩
  have hne : ¬((gameweek_ids.filterMap (fun gw =>
      (src.statsFile gw).map (fun df => stampDf df gw season))).isEmpty = true) := by
    cases h : gameweek_ids.filterMap (fun gw =>
        (src.statsFile gw).map (fun df => stampDf df gw season)) with
    | nil => rw [h] at hmem0; exact absurd hmem0 (List.not_mem_nil _)
    | cons a l => simp [h]
  have hcount0 : (concatDfs (gameweek_ids.filterMap (fun gw =>
      (src.statsFile gw).map (fun df => stampDf df gw season)))).cols.count "status" = 0 := by
    rw [List.count_eq_zero]
    intro hmem
    obtain ⟨df', hdf', hc⟩ := (concatDfs_cols_mem _ _).mp hmem
    obtain ⟨gw, hgw, heq⟩ := List.mem_filterMap.mp hdf'
    obtain ⟨d0, hd0, hstamp⟩ := Option.map_eq_some'.mp heq
    rw [← hstamp] at hc
    rw [stampDf_mem_cols (by decide) (by decide)] at hc
    exact hnostatus gw hgw d0 hd0 hc
  have hfs : ∀ c1, merge_player_data (concatDfs (gameweek_ids.filterMap (fun gw =>
      (src.statsFile gw).map (fun df => stampDf df gw season))))
        (load_players_data src gameweek_ids) = Except.ok c1 →
      ∀ c2, merge_team_data c1 (load_teams_data src gameweek_ids) = Except.ok c2 →
      filterStatus c2 = Except.error "KeyError: status" := by
    intro c1 hmp c2 hmt
    have hcount2 : c2.cols.count "status" = 0 := by
      rw [merge_team_data_count _ _ _ _ (by decide) (by decide) (by decide) hmt,
        merge_player_data_count _ _ _ _ (by decide) (by decide) hmp]
      exact hcount0
    unfold filterStatus
    rw [if_neg (by rw [contains_true_iff]; exact List.count_eq_zero.mp hcount2)]
  constructor
  · cases hmp : merge_player_data (concatDfs (gameweek_ids.filterMap (fun gw =>
        (src.statsFile gw).map (fun df => stampDf df gw season))))
        (load_players_data src gameweek_ids) with
    | error e =>
      refine ⟨e, ?_⟩
      unfold load_player_gameweek_stats
      dsimp only
      rw [if_neg hne, hmp]
      rfl
    | ok c1 =>
      cases hmt : merge_team_data c1 (load_teams_data src gameweek_ids) with
      | error e =>
        refine ⟨e, ?_⟩
        unfold load_player_gameweek_stats
        dsimp only
        rw [if_neg hne, hmp]
        show Except.bind (merge_team_data c1 (load_teams_data src gameweek_ids)) filterStatus =
          Except.error e
        rw [hmt]
        rfl
      | ok c2 =>
        refine ⟨"KeyError: status", ?_⟩
        unfold load_player_gameweek_stats
        dsimp only
        rw [if_neg hne, hmp]
        show Except.bind (merge_team_data c1 (load_teams_data src gameweek_ids)) filterStatus =
          Except.error "KeyError: status"
        rw [hmt]
        show filterStatus c2 = Except.error "KeyError: status"
        exact hfs c1 hmp c2 hmt
  · intro hP hT
    obtain ⟨c1, hmp⟩ := merge_player_data_ok (concatDfs (gameweek_ids.filterMap (fun gw =>
      (src.statsFile gw).map (fun df => stampDf df gw season))))
      (load_players_data src gameweek_ids) hP
    obtain ⟨c2, hmt⟩ := merge_team_data_ok c1 (load_teams_data src gameweek_ids) hT
    unfold load_player_gameweek_stats
    dsimp only
    rw [if_neg hne, hmp]
    show Except.bind (merge_team_data c1 (load_teams_data src gameweek_ids)) filterStatus =
      Except.error "KeyError: status"
    rw [hmt]
    show filterStatus c2 = Except.error "KeyError: status"
    exact hfs c1 hmp c2 hmt

/-- Concrete instantiation of `load_stats_missing_status_raises`: the
reference tables are absent (empty frames), so the raised error is the
status filter's. -/
theorem load_stats_missing_status_raises_witness :
    load_player_gameweek_stats srcMissingStatus [1] "2025-2026" =
      Except.error "KeyError: status" :=
  (load_stats_missing_status_raises srcMissingStatus [1] "2025-2026"
    ⟨1, by decide, rfl⟩
    (by
      intro gw hgw df hdf
      rw [List.mem_singleton] at hgw
      subst hgw
      have h' : some dfNoStatus = some df := by simpa [srcMissingStatus] using hdf
      rw [← Option.some.inj h']
      decide)).2 (Or.inl (by decide)) (Or.inl (by decide))

/-- C8 counterexample: with no finished/checked gameweek,
`analyse_fpl` returns `next_gameweek = none` even though
`get_next_gameweek` resolves gameweek 6 for the same schedule. -/
theorem analyse_fpl_short_circuit_next_dropped :
    analyse_fpl srcNoFinished = Except.ok ⟨[], none, []⟩ ∧
    get_next_gameweek srcNoFinished.schedule = some 6 := ⟨rfl, rfl⟩

/-- C8 (amended): when no finished and data_checked gameweek exists, the
pipeline entry point short-circuits and returns a response whose
`past_gameweeks` and `player_stats` are empty and whose `next_gameweek`
is `none` (`get_next_gameweek` is not consulted on this path). -/
theorem analyse_fpl_short_circuit (src : DataSource)
    (h : get_recent_finished_gameweeks src.schedule 5 = []) :
    analyse_fpl src = Except.ok ⟨[], none, []⟩ := by
  simp [analyse_fpl, h]

/-- Concrete instantiation of `analyse_fpl_short_circuit`. -/
theorem analyse_fpl_short_circuit_witness :
    analyse_fpl srcNoFinished = Except.ok ⟨[], none, []⟩ :=
  analyse_fpl_short_circuit srcNoFinished rfl

/-- The rows of a merge result, unfolded. -/
theorem Df.merge_rows (left right : Df) (lk rk ls rs : String) :
    (Df.merge left right lk rk ls rs).rows =
      left.rows.flatMap (fun lr =>
        let lpart := lr.map (fun kv =>
          (if right.cols.contains kv.1 then kv.1 ++ ls else kv.1, kv.2))
        let ms := right.rows.filter (fun rr => (cellR rr rk).keyEq (cellR lr lk))
        if ms.isEmpty then
          [lpart ++ (right.cols.map (fun c =>
            if left.cols.contains c then c ++ rs else c)).map (fun c => (c, Value.nan))]
        else ms.map (fun rr => lpart ++ rr.map (fun kv =>
          (if left.cols.contains kv.1 then kv.1 ++ rs else kv.1, kv.2)))) := rfl

/-- The rows after a column drop, unfolded. -/
theorem Df.dropCol_rows (df : Df) (c : String) :
    (df.dropCol c).rows = df.rows.map (fun r => r.filter (fun kv => kv.1 != c)) := rfl

/-- Mapping a function that fixes every element is the identity. -/
theorem map_self_of_eq {α : Type} (l : List α) (f : α → α) (h : ∀ a ∈ l, f a = a) :
    l.map f = l := by
  induction l with
  | nil => rfl
  | cons a t ih =>
    rw [List.map_cons, h a (List.mem_cons_self _ _),
      ih (fun x hx => h x (List.mem_cons_of_mem _ hx))]

/-- Membership in a mapped list from a preimage and its image value. -/
theorem mem_map_of_eq {α β : Type} {l : List α} {f : α → β} {a : α} {b : β}
    (ha : a ∈ l) (hb : f a = b) : b ∈ l.map f := hb ▸ List.mem_map_of_mem f ha

/-- Cell lookup skips a cell with a different label. -/
theorem cellR_cons_ne (a : String × Value) (r : Row) (c : String) (h : a.1 ≠ c) :
    cellR (a :: r) c = cellR r c := by
  unfold cellR
  rw [List.find?_cons_of_neg]
  simp [h]

/-- Cell lookup hits the first cell with the requested label. -/
theorem cellR_cons_eq (k : String) (v : Value) (r : Row) :
    cellR ((k, v) :: r) k = v := by
  unfold cellR
  rw [List.find?_cons_of_pos]
  simp

/-- C3 (amended): provided the stat rows carry none of the player
reference labels (`player_id`, `position`, `team_code`) themselves, and
the players frame carries all three (else the list-label selection
raises `KeyError`), `merge_player_data` succeeds as a left join on
`id` = `player_id` that preserves every stat row: the schema is the stat
schema plus `position` and `team_code`; every output row extends a stat
row either with a matching reference's `position` / `team_code` or with
both absent; every stat row yields at least one output row; a stat row
matched by no reference -- matching being `pd.merge`'s key pairing, under
which a `NaN` id matches a `NaN` reference key -- appears with `position`
and `team_code` absent (`NaN`, stripped before serialization, not a
placeholder value); and the `player_id` matching column appears in no
column index and in no row.  (When the stat rows do carry a `player_id`
column, pandas suffixes both copies and the matching column survives as
`player_id_y`: see the counterexample.) -/
theorem join_player_ref_spec (combined players_df : Df)
    (hdisj : ∀ a ∈ combined.cols, a ≠ "player_id" ∧ a ≠ "position" ∧ a ≠ "team_code")
    (hrows : ∀ r ∈ combined.rows, r.map Prod.fst = combined.cols)
    (hne : players_df.isEmpty = false)
    (hlab : ∀ c ∈ (["player_id", "position", "team_code"] : List String),
      c ∈ players_df.cols) :
    ∃ res, merge_player_data combined players_df = Except.ok res ∧
    (res.cols = combined.cols ++ ["position", "team_code"] ∧
    (∀ out ∈ res.rows, ∃ lr ∈ combined.rows,
      (∃ pr ∈ players_df.rows, (cellR pr "player_id").keyEq (cellR lr "id") = true ∧
        out = lr ++ [("position", cellR pr "position"), ("team_code", cellR pr "team_code")]) ∨
      out = lr ++ [("position", Value.nan), ("team_code", Value.nan)]) ∧
    (∀ lr ∈ combined.rows, ∃ vp vt,
      lr ++ [("position", vp), ("team_code", vt)] ∈ res.rows) ∧
    (∀ lr ∈ combined.rows,
      (∀ pr ∈ players_df.rows, (cellR pr "player_id").keyEq (cellR lr "id") = false) →
      lr ++ [("position", Value.nan), ("team_code", Value.nan)] ∈ res.rows) ∧
    "player_id" ∉ res.cols ∧
    (∀ out ∈ res.rows, ∀ v, ("player_id", v) ∉ out)) := by
  have hcpid : combined.cols.contains "player_id" = false :=
    (contains_false_iff _ _).mpr (fun hmem => (hdisj _ hmem).1 rfl)
  have hcpos : combined.cols.contains "position" = false :=
    (contains_false_iff _ _).mpr (fun hmem => (hdisj _ hmem).2.1 rfl)
  have hctc : combined.cols.contains "team_code" = false :=
    (contains_false_iff _ _).mpr (fun hmem => (hdisj _ hmem).2.2 rfl)
  have hlpart : ∀ lr ∈ combined.rows, lr.map (fun kv =>
      (if (["player_id", "position", "team_code"] : List String).contains kv.1
        then kv.1 ++ "_x" else kv.1, kv.2)) = lr := by
    intro lr hlr
    apply map_self_of_eq
    intro kv hkv
    have hk : kv.1 ∈ combined.cols := by
      rw [← hrows lr hlr]; exact List.mem_map_of_mem Prod.fst hkv
    obtain ⟨h1, h2, h3⟩ := hdisj kv.1 hk
    rw [if_neg (by simp [h1, h2, h3])]
  have hrpartfix : ∀ r : Row,
      ([("player_id", cellR r "player_id"), ("position", cellR r "position"),
        ("team_code", cellR r "team_code")] : Row).map (fun kv =>
        (if combined.cols.contains kv.1 then kv.1 ++ "_y" else kv.1, kv.2)) =
      [("player_id", cellR r "player_id"), ("position", cellR r "position"),
        ("team_code", cellR r "team_code")] := by
    intro r
    simp [(contains_false_iff _ _).mp hcpid, (contains_false_iff _ _).mp hcpos,
      (contains_false_iff _ _).mp hctc]
  have hfilter3 : ∀ v1 v2 v3 : Value,
      ([("player_id", v1), ("position", v2), ("team_code", v3)] : Row).filter
        (fun kv => kv.1 != "player_id") = [("position", v2), ("team_code", v3)] :=
    fun _ _ _ => rfl
  have hdropL : ∀ lr ∈ combined.rows,
      lr.filter (fun kv => kv.1 != "player_id") = lr := by
    intro lr hlr
    apply List.filter_eq_self.mpr
    intro kv hkv
    have hk : kv.1 ∈ combined.cols := by
      rw [← hrows lr hlr]; exact List.mem_map_of_mem Prod.fst hkv
    exact bne_iff_ne.mpr (hdisj kv.1 hk).1
  have hmapL : combined.cols.map (fun c =>
      if (["player_id", "position", "team_code"] : List String).contains c
        then c ++ "_x" else c) = combined.cols := by
    apply map_self_of_eq
    intro a ha
    obtain ⟨h1, h2, h3⟩ := hdisj a ha
    rw [if_neg (by simp [h1, h2, h3])]
  have hCfilter : combined.cols.filter (fun c0 => c0 != "player_id") = combined.cols :=
    List.filter_eq_self.mpr (fun a ha => bne_iff_ne.mpr (hdisj a ha).1)
  have hnanrow :
      ([(if combined.cols.contains "player_id" = true then "player_id" ++ "_y" else "player_id",
          Value.nan),
        (if combined.cols.contains "position" = true then "position" ++ "_y" else "position",
          Value.nan),
        (if combined.cols.contains "team_code" = true then "team_code" ++ "_y" else "team_code",
          Value.nan)] : Row) =
      [("player_id", Value.nan), ("position", Value.nan), ("team_code", Value.nan)] := by
    rw [hcpid, hcpos, hctc]
    rfl
  have hok : merge_player_data combined players_df = Except.ok
      ((combined.merge (players_df.reindexCols ["player_id", "position", "team_code"])
        "id" "player_id" "_x" "_y").dropCol "player_id") := by
    unfold merge_player_data
    rw [if_pos (by simp [hne]), select_ok_of_mem players_df _ hlab]
    rfl
  refine ⟨_, hok, ?_⟩
  simp only [Df.dropCol_cols, Df.dropCol_rows, Df.merge_cols, Df.merge_rows,
    Df.reindexCols_cols, Df.reindexCols_rows, List.map_cons, List.map_nil]
  refine ⟨?_, ?_, ?_, ?_, ?_, ?_⟩
  · rw [hcpid, hcpos, hctc, hmapL, List.filter_append, hCfilter]
    rfl
  · intro out hout
    obtain ⟨m, hm, rfl⟩ := List.mem_map.mp hout
    obtain ⟨lr, hlr, hmem⟩ := List.mem_flatMap.mp hm
    simp only [hlpart lr hlr, hnanrow] at hmem
    split at hmem
    · rw [List.mem_singleton] at hmem
      subst hmem
      refine ⟨lr, hlr, Or.inr ?_⟩
      rw [List.filter_append, hdropL lr hlr, hfilter3]
    · obtain ⟨rr, hrr, rfl⟩ := List.mem_map.mp hmem
      obtain ⟨hrrmem, hpred⟩ := List.mem_filter.mp hrr
      obtain ⟨r, hr, rfl⟩ := List.mem_map.mp hrrmem
      rw [cellR_cons_eq] at hpred
      refine ⟨lr, hlr, Or.inl ⟨r, hr, hpred, ?_⟩⟩
      rw [hrpartfix r, List.filter_append, hdropL lr hlr, hfilter3]
  · intro lr hlr
    by_cases hms : (List.filter (fun rr => (cellR rr "player_id").keyEq (cellR lr "id"))
        (List.map (fun r => [("player_id", cellR r "player_id"), ("position", cellR r "position"),
          ("team_code", cellR r "team_code")]) players_df.rows)).isEmpty = true
    · refine ⟨Value.nan, Value.nan, ?_⟩
      exact mem_map_of_eq
        (List.mem_flatMap.mpr ⟨lr, hlr, by rw [if_pos hms]; exact List.mem_singleton.mpr rfl⟩)
        (by simp only [hlpart lr hlr, hnanrow, List.filter_append, hdropL lr hlr, hfilter3])
    · cases hcs : List.filter (fun rr => (cellR rr "player_id").keyEq (cellR lr "id"))
          (List.map (fun r => [("player_id", cellR r "player_id"), ("position", cellR r "position"),
            ("team_code", cellR r "team_code")]) players_df.rows) with
      | nil => rw [hcs] at hms; simp at hms
      | cons rr tl =>
        have hrrmem : rr ∈ List.filter (fun rr => (cellR rr "player_id").keyEq (cellR lr "id"))
            (List.map (fun r => [("player_id", cellR r "player_id"),
              ("position", cellR r "position"),
              ("team_code", cellR r "team_code")]) players_df.rows) := by
          rw [hcs]; exact List.mem_cons_self _ _
        obtain ⟨hrrmem', hpred⟩ := List.mem_filter.mp hrrmem
        obtain ⟨r, hr, rfl⟩ := List.mem_map.mp hrrmem'
        refine ⟨cellR r "position", cellR r "team_code", ?_⟩
        exact mem_map_of_eq
          (List.mem_flatMap.mpr ⟨lr, hlr, by
            rw [if_neg hms]; exact List.mem_map_of_mem _ hrrmem⟩)
          (by simp only [hlpart lr hlr, hrpartfix r, List.filter_append, hdropL lr hlr, hfilter3])
  · intro lr hlr hnomatch
    have hms : List.filter (fun rr => (cellR rr "player_id").keyEq (cellR lr "id"))
        (List.map (fun r => [("player_id", cellR r "player_id"), ("position", cellR r "position"),
          ("team_code", cellR r "team_code")]) players_df.rows) = [] := by
      rw [List.filter_eq_nil_iff]
      intro rr hrr
      obtain ⟨r, hr, rfl⟩ := List.mem_map.mp hrr
      rw [cellR_cons_eq]
      simp [hnomatch r hr]
    exact mem_map_of_eq
      (List.mem_flatMap.mpr ⟨lr, hlr, by
        rw [if_pos (by rw [hms]; rfl)]; exact List.mem_singleton.mpr rfl⟩)
      (by simp only [hlpart lr hlr, hnanrow, List.filter_append, hdropL lr hlr, hfilter3])
  · rw [hcpid, hcpos, hctc, hmapL, List.filter_append, hCfilter]
    simp
    intro hmem
    exact (hdisj _ hmem).1 rfl
  · intro out hout v hv
    obtain ⟨m, hm, rfl⟩ := List.mem_map.mp hout
    have hp := (List.mem_filter.mp hv).2
    simp at hp

/-- C3 counterexample: when the stat rows already carry a `player_id`
column, pandas suffixes both copies and the `entity_id` matching column
survives in the output as `player_id_y` (the `drop` of `player_id` is a
no-op), carrying the matched key value. -/
theorem join_player_ref_leaks_key :
    merge_player_data dfStatsClash dfPlayersRef = Except.ok
      ⟨["id", "player_id_x", "player_id_y", "position", "team_code"],
       [[("id", Value.int 1), ("player_id_x", Value.int 99), ("player_id_y", Value.int 1),
         ("position", Value.str "MID"), ("team_code", Value.int 3)]]⟩ := rfl

/-- Concrete instantiation of `join_player_ref_spec`: the join succeeds
and the one stat row is preserved. -/
theorem join_player_ref_spec_witness :
    ∃ res, merge_player_data dfOneStat dfPlayersRef = Except.ok res ∧
      ∃ vp vt, ([("id", Value.int 1)] : Row) ++ [("position", vp), ("team_code", vt)] ∈
        res.rows := by
  obtain ⟨res, hok, _, _, h3, _⟩ :=
    join_player_ref_spec dfOneStat dfPlayersRef (by decide) (by decide) rfl (by decide)
  exact ⟨res, hok, h3 [("id", Value.int 1)] (by decide)⟩

/-- The rows after a rename, unfolded. -/
theorem Df.renameCols_rows (df : Df) (m : List (String × String)) :
    (df.renameCols m).rows =
      df.rows.map (fun r => r.map (fun kv => (renameKey m kv.1, kv.2))) := rfl

/-- Congruence for `map` over a common list. -/
theorem map_congr_mem {α β : Type} (l : List α) (f g : α → β)
    (h : ∀ a ∈ l, f a = g a) : l.map f = l.map g := by
  induction l with
  | nil => rfl
  | cons a t ih =>
    rw [List.map_cons, List.map_cons, h a (List.mem_cons_self _ _),
      ih (fun x hx => h x (List.mem_cons_of_mem _ hx))]

/-- Looking up a present field in the strength part of the rename
dictionary finds its `team_`-prefixed entry. -/
theorem find_strength_entry (M : Df) (f : String) :
    ∀ L : List String, f ∈ L → f ∈ M.cols →
      List.find? (fun pr => pr.1 == f) (L.filterMap (fun f0 =>
        if M.cols.contains f0 = true then some (f0, "team_" ++ f0) else none)) =
      some (f, "team_" ++ f) := by
  intro L
  induction L with
  | nil => intro h; cases h
  | cons a t ih =>
    intro hf hM
    by_cases haf : a = f
    · subst haf
      rw [List.filterMap_cons_some (by rw [if_pos ((contains_true_iff _ _).mpr hM)]),
        List.find?_cons_of_pos _ (by simp)]
    · have hft : f ∈ t := by
        rcases List.mem_cons.mp hf with h | h
        · exact absurd h.symm haf
        · exact h
      by_cases hca : M.cols.contains a = true
      · rw [List.filterMap_cons_some (by rw [if_pos hca]),
          List.find?_cons_of_neg _ (by simp [haf])]
        exact ih hft hM
      · rw [List.filterMap_cons_none (by rw [if_neg hca])]
        exact ih hft hM

/-- C4 (amended): when the team table is non-empty and `team_code` is
present, the row set shares no field name with the join key `code` or
the allow-listed team fields (`name`, `elo`, the strength metrics), and
the team table carries the three unguarded labels `code`, `name`, `elo`
(only the strength metrics are presence-guarded in the selection), the
team merge succeeds and pulls across exactly the allow-listed fields
present in the source, renamed with a `team_` prefix
(`name`→`team_name`, `elo`→`team_elo`, `strength*`→`team_strength*`),
drops the `code` key column, and leaves all original columns and row
values untouched; when the team table is non-empty with `team_code`
present but lacks `code`, `name` or `elo`, the selection raises an
uncaught `KeyError`; when the team table is empty or `team_code` is
absent, the step returns the row set unchanged.  (When a pulled field's
name is already present on the input, the code instead renames the
input's own column and the pulled copy keeps a `_team` suffix: see the
counterexample.) -/
theorem join_team_ref_spec (combined teams_df : Df)
    (hdisj : ∀ a ∈ combined.cols, a ≠ "code" ∧ a ≠ "name" ∧ a ≠ "elo" ∧ a ∉ strength_fields)
    (hrows : ∀ r ∈ combined.rows, r.map Prod.fst = combined.cols) :
    ((!teams_df.isEmpty && combined.cols.contains "team_code") = true →
      (∀ c ∈ (["code", "name", "elo"] : List String), c ∈ teams_df.cols) →
      ∃ res, merge_team_data combined teams_df = Except.ok res ∧
      res.cols =
        combined.cols ++ "team_name" :: "team_elo" ::
          (strength_fields.filter (fun c => teams_df.cols.contains c)).map
            (fun f => "team_" ++ f) ∧
      ∀ out ∈ res.rows,
        ∃ lr ∈ combined.rows, ∃ rest : Row, out = lr ++ rest ∧
          ∀ kv ∈ rest, kv.1 ∈ "team_name" :: "team_elo" ::
            (strength_fields.filter (fun c => teams_df.cols.contains c)).map
              (fun f => "team_" ++ f)) ∧
    ((!teams_df.isEmpty && combined.cols.contains "team_code") = true →
      (∃ c ∈ (["code", "name", "elo"] : List String), c ∉ teams_df.cols) →
      merge_team_data combined teams_df =
        Except.error "KeyError: columns not in index") ∧
    ((!teams_df.isEmpty && combined.cols.contains "team_code") = false →
      merge_team_data combined teams_df = Except.ok combined) := by
  refine ⟨?_, ?_, ?_⟩
  · intro hguard hlab
    have hccode : combined.cols.contains "code" = false :=
      (contains_false_iff _ _).mpr (fun h => (hdisj _ h).1 rfl)
    have hcname : combined.cols.contains "name" = false :=
      (contains_false_iff _ _).mpr (fun h => (hdisj _ h).2.1 rfl)
    have hcelo : combined.cols.contains "elo" = false :=
      (contains_false_iff _ _).mpr (fun h => (hdisj _ h).2.2.1 rfl)
    have hcsf : ∀ f ∈ strength_fields, combined.cols.contains f = false :=
      fun f hf => (contains_false_iff _ _).mpr (fun h => (hdisj _ h).2.2.2 hf)
    have hrmem : ∀ a ∈ ("code" :: (["name", "elo"] ++
        strength_fields.filter (fun c => teams_df.cols.contains c))),
        combined.cols.contains a = false := by
      intro a ha
      rcases List.mem_cons.mp ha with rfl | ha'
      · exact hccode
      · rcases List.mem_append.mp ha' with h | h
        · rcases List.mem_cons.mp h with rfl | h'
          · exact hcname
          · rcases List.mem_cons.mp h' with rfl | h''
            · exact hcelo
            · exact absurd h'' (List.not_mem_nil a)
        · exact hcsf a (List.mem_filter.mp h).1
    have hsfcode : ∀ f ∈ strength_fields, f ≠ "code" := by decide
    have hsfname : ∀ f ∈ strength_fields, f ≠ "name" ∧ f ≠ "elo" := by decide
    have hlsuf : ∀ (R : List String) (lr : Row), lr.map (fun kv =>
        (if R.contains kv.1 = true then kv.1 ++ "" else kv.1, kv.2)) = lr := by
      intro R lr
      apply map_self_of_eq
      intro kv _
      split
      · rw [String.append_empty]
      · rfl
    have hlsufc : ∀ (R L : List String), L.map (fun c =>
        if R.contains c = true then c ++ "" else c) = L := by
      intro R L
      apply map_self_of_eq
      intro a _
      split
      · exact String.append_empty a
      · rfl
    have hmemsel : ∀ c ∈ ("code" :: (["name", "elo"] ++
        strength_fields.filter (fun c0 => teams_df.cols.contains c0))), c ∈ teams_df.cols := by
      intro c hc
      rcases List.mem_cons.mp hc with rfl | hc'
      · exact hlab "code" (by simp)
      · rcases List.mem_append.mp hc' with h0 | h0
        · rcases List.mem_cons.mp h0 with rfl | h1
          · exact hlab "name" (by simp)
          · rcases List.mem_cons.mp h1 with rfl | h2
            · exact hlab "elo" (by simp)
            · exact absurd h2 (List.not_mem_nil c)
        · exact (contains_true_iff _ _).mp (List.mem_filter.mp h0).2
    set M := (combined.merge (teams_df.reindexCols ("code" :: (["name", "elo"] ++
      strength_fields.filter (fun c => teams_df.cols.contains c))))
      "team_code" "code" "" "_team").dropCol "code" with hMdef
    have hrmapR : ("code" :: (["name", "elo"] ++
        strength_fields.filter (fun c => teams_df.cols.contains c))).map
        (fun c => if combined.cols.contains c = true then c ++ "_team" else c) =
        "code" :: (["name", "elo"] ++
          strength_fields.filter (fun c => teams_df.cols.contains c)) := by
      apply map_self_of_eq
      intro a ha
      rw [if_neg (by rw [hrmem a ha]; exact Bool.false_ne_true)]
    have hMcols : M.cols = combined.cols ++ ("name" :: "elo" ::
        strength_fields.filter (fun c => teams_df.cols.contains c)) := by
      rw [hMdef]
      simp only [Df.dropCol_cols, Df.merge_cols, Df.reindexCols_cols]
      rw [hlsufc, hrmapR, List.filter_append]
      congr 1
      · exact List.filter_eq_self.mpr (fun a ha => bne_iff_ne.mpr (hdisj a ha).1)
      · rw [List.filter_cons_of_neg (by simp)]
        apply List.filter_eq_self.mpr
        intro a ha
        rcases List.mem_append.mp ha with h | h
        · rcases List.mem_cons.mp h with rfl | h'
          · rfl
          · rcases List.mem_cons.mp h' with rfl | h''
            · rfl
            · exact absurd h'' (List.not_mem_nil a)
        · exact bne_iff_ne.mpr (hsfcode _ (List.mem_filter.mp h).1)
    have hnamein : "name" ∈ M.cols := by
      rw [hMcols]; exact List.mem_append.mpr (Or.inr (List.mem_cons_self _ _))
    have heloin : "elo" ∈ M.cols := by
      rw [hMcols]
      exact List.mem_append.mpr (Or.inr (List.mem_cons_of_mem _ (List.mem_cons_self _ _)))
    have hfin : ∀ f ∈ strength_fields.filter (fun c => teams_df.cols.contains c),
        f ∈ M.cols := by
      intro f hf
      rw [hMcols]
      exact List.mem_append.mpr (Or.inr (List.mem_cons_of_mem _ (List.mem_cons_of_mem _ hf)))
    have hdictform : team_rename_dict M = ("name", "team_name") :: ("elo", "team_elo") ::
        strength_fields.filterMap (fun f =>
          if M.cols.contains f = true then some (f, "team_" ++ f) else none) := by
      unfold team_rename_dict
      rw [if_pos ((contains_true_iff _ _).mpr hnamein),
        if_pos ((contains_true_iff _ _).mpr heloin)]
      rfl
    have hdictne : ¬((team_rename_dict M).isEmpty = true) := by
      rw [hdictform]; simp
    have hrkname : renameKey (team_rename_dict M) "name" = "team_name" := by
      rw [hdictform]; rfl
    have hrkelo : renameKey (team_rename_dict M) "elo" = "team_elo" := by
      rw [hdictform]; rfl
    have hrkf : ∀ f ∈ strength_fields.filter (fun c => teams_df.cols.contains c),
        renameKey (team_rename_dict M) f = "team_" ++ f := by
      intro f hf
      have hfs := (List.mem_filter.mp hf).1
      rw [hdictform]
      unfold renameKey
      rw [List.find?_cons_of_neg _ (by simp [Ne.symm (hsfname f hfs).1]),
        List.find?_cons_of_neg _ (by simp [Ne.symm (hsfname f hfs).2]),
        find_strength_entry M f strength_fields hfs (hfin f hf)]
    have hrkcomb : ∀ a ∈ combined.cols, renameKey (team_rename_dict M) a = a := by
      intro a ha
      have hfind : List.find? (fun p => p.1 == a) (team_rename_dict M) = none := by
        rw [List.find?_eq_none]
        intro pr hpr
        rcases team_rename_dict_mem M pr hpr with rfl | rfl | ⟨f, hf, rfl⟩
        · simp [Ne.symm (hdisj a ha).2.1]
        · simp [Ne.symm (hdisj a ha).2.2.1]
        · have hfa : f ≠ a := fun h => (hdisj a ha).2.2.2 (h ▸ hf)
          simp [hfa]
      unfold renameKey
      rw [hfind]
    refine ⟨M.renameCols (team_rename_dict M), ?_, ?_, ?_⟩
    · unfold merge_team_data
      rw [if_pos hguard, select_ok_of_mem teams_df _ hmemsel]
      show Except.ok (if (team_rename_dict M).isEmpty = true then M
        else M.renameCols (team_rename_dict M)) = Except.ok (M.renameCols (team_rename_dict M))
      rw [if_neg hdictne]
    · rw [Df.renameCols_cols, hMcols, List.map_append]
      congr 1
      · exact map_self_of_eq _ _ hrkcomb
      · rw [List.map_cons, List.map_cons, hrkname, hrkelo, map_congr_mem _ _ _ hrkf]
    · rw [Df.renameCols_rows]
      intro out hout
      obtain ⟨m, hm, rfl⟩ := List.mem_map.mp hout
      rw [hMdef] at hm
      simp only [Df.dropCol_rows, Df.merge_rows, Df.reindexCols_rows, Df.reindexCols_cols] at hm
      obtain ⟨m0, hm0, rfl⟩ := List.mem_map.mp hm
      obtain ⟨lr, hlr, hmem⟩ := List.mem_flatMap.mp hm0
      simp only [hlsuf] at hmem
      have hshape : ∃ g : String → Value,
          m0 = lr ++ ("code" :: (["name", "elo"] ++
            strength_fields.filter (fun c => teams_df.cols.contains c))).map
              (fun c => (c, g c)) := by
        split at hmem
        · rw [List.mem_singleton] at hmem
          refine ⟨fun _ => Value.nan, ?_⟩
          rw [hmem]
          congr 1
          rw [hrmapR]
        · obtain ⟨rr, hrr, rfl⟩ := List.mem_map.mp hmem
          obtain ⟨hrrmem, _⟩ := List.mem_filter.mp hrr
          obtain ⟨r, _, rfl⟩ := List.mem_map.mp hrrmem
          refine ⟨fun c => cellR r c, ?_⟩
          congr 1
          apply map_self_of_eq
          intro kv hkv
          obtain ⟨c, hc, rfl⟩ := List.mem_map.mp hkv
          show (if combined.cols.contains c = true then c ++ "_team" else c, cellR r c) =
            (c, cellR r c)
          rw [if_neg (by rw [hrmem c hc]; exact Bool.false_ne_true)]
      obtain ⟨g, rfl⟩ := hshape
      have hlf : lr.filter (fun kv => kv.1 != "code") = lr := by
        apply List.filter_eq_self.mpr
        intro kv hkv
        have hk : kv.1 ∈ combined.cols := by
          rw [← hrows lr hlr]; exact List.mem_map_of_mem Prod.fst hkv
        exact bne_iff_ne.mpr (hdisj _ hk).1
      have hlm : lr.map (fun kv => (renameKey (team_rename_dict M) kv.1, kv.2)) = lr := by
        apply map_self_of_eq
        intro kv hkv
        have hk : kv.1 ∈ combined.cols := by
          rw [← hrows lr hlr]; exact List.mem_map_of_mem Prod.fst hkv
        show (renameKey (team_rename_dict M) kv.1, kv.2) = kv
        rw [hrkcomb kv.1 hk]
      refine ⟨lr, hlr,
        ((("code" :: (["name", "elo"] ++
          strength_fields.filter (fun c => teams_df.cols.contains c))).map
            (fun c => (c, g c))).filter (fun kv => kv.1 != "code")).map
              (fun kv => (renameKey (team_rename_dict M) kv.1, kv.2)), ?_, ?_⟩
      · rw [List.filter_append, List.map_append, hlf, hlm]
      · intro kv hkv
        obtain ⟨kv1, hkv1, rfl⟩ := List.mem_map.mp hkv
        obtain ⟨hkv1m, hkv1ne⟩ := List.mem_filter.mp hkv1
        obtain ⟨c, hc, rfl⟩ := List.mem_map.mp hkv1m
        rcases List.mem_cons.mp hc with rfl | hc'
        · simp at hkv1ne
        · rcases List.mem_append.mp hc' with h | h
          · rcases List.mem_cons.mp h with rfl | h'
            · simp only [hrkname]
              exact List.mem_cons_self _ _
            · rcases List.mem_cons.mp h' with rfl | h''
              · simp only [hrkelo]
                exact List.mem_cons_of_mem _ (List.mem_cons_self _ _)
              · exact absurd h'' (List.not_mem_nil c)
          · simp only [hrkf c h]
            exact List.mem_cons_of_mem _ (List.mem_cons_of_mem _ (List.mem_map_of_mem _ h))
  · intro hguard hmissing
    obtain ⟨c, hc, hcnot⟩ := hmissing
    have hmem : c ∈ ("code" :: (["name", "elo"] ++
        strength_fields.filter (fun c0 => teams_df.cols.contains c0))) := by
      rcases List.mem_cons.mp hc with rfl | hc'
      · exact List.mem_cons_self _ _
      · rcases List.mem_cons.mp hc' with rfl | hc''
        · exact List.mem_cons_of_mem _ (List.mem_append_left _ (List.mem_cons_self _ _))
        · rcases List.mem_cons.mp hc'' with rfl | hc3
          · exact List.mem_cons_of_mem _ (List.mem_append_left _
              (List.mem_cons_of_mem _ (List.mem_cons_self _ _)))
          · exact absurd hc3 (List.not_mem_nil c)
    unfold merge_team_data
    rw [if_pos hguard, select_error_of_not_mem teams_df _ ⟨c, hmem, hcnot⟩]
    rfl
  · intro hguard
    unfold merge_team_data
    rw [if_neg (by rw [hguard]; exact Bool.false_ne_true)]

/-- C4 counterexample: when the input rows already carry a `name` field,
the team merge stores the pulled team name under the suffixed column
`name_team`, and the rename step instead renames the *input's* own
`name` column to `team_name` (the row value under `team_name` is the
player's `"Player Name"`, not the team's `"Arsenal"`). -/
theorem join_team_ref_renames_input_field :
    merge_team_data dfStatsName dfTeamsRef = Except.ok
      ⟨["id", "team_code", "team_name", "name_team", "team_elo"],
       [[("id", Value.int 1), ("team_code", Value.int 7),
         ("team_name", Value.str "Player Name"), ("name_team", Value.str "Arsenal"),
         ("team_elo", Value.float (Rat.divInt 5 1))]]⟩ := rfl

/-- Concrete instantiation of `join_team_ref_spec`: on collision-free
input the merge succeeds and the pulled columns appear under their
`team_` names. -/
theorem join_team_ref_spec_witness :
    ∃ res, merge_team_data dfStatsPlain dfTeamsRef = Except.ok res ∧
      res.cols = ["id", "team_code"] ++ "team_name" :: "team_elo" ::
        (strength_fields.filter (fun c => dfTeamsRef.cols.contains c)).map
          (fun f => "team_" ++ f) := by
  obtain ⟨res, hok, hcols, _⟩ :=
    (join_team_ref_spec dfStatsPlain dfTeamsRef (by decide) (by decide)).1 (by decide) (by decide)
  exact ⟨res, hok, hcols⟩

/-- The kernel-computable form of `q * 100` agrees with the field one. -/
theorem divInt_num_den_mul (q : Rat) : Rat.divInt (q.num * 100) (q.den : Int) = q * 100 := by
  have hden : ((q.den : Rat)) ≠ 0 := by exact_mod_cast Rat.den_ne_zero q
  have hnum : (q.num : Rat) = q * (q.den : Rat) := (div_eq_iff hden).mp (Rat.num_div_den q)
  rw [Rat.divInt_eq_div]
  push_cast
  rw [div_eq_iff hden, hnum]
  ring

/-- `roundedTo2dp` unfolded to the field form. -/
theorem roundedTo2dp_iff (q : Rat) : roundedTo2dp q ↔ (q * 100).den = 1 := by
  unfold roundedTo2dp
  rw [divInt_num_den_mul]

/-- An integer divided by 100 has at most 2 decimal places. -/
theorem divInt_hundred_rounded (n : Int) : roundedTo2dp (Rat.divInt n 100) := by
  rw [roundedTo2dp_iff]
  have h : Rat.divInt n 100 * 100 = (n : Rat) := by
    rw [Rat.divInt_eq_div]
    push_cast
    exact div_mul_cancel₀ _ (by norm_num)
  rw [h, Rat.den_intCast]

/-- `round(x, 2)` always produces a value with at most 2 decimal places. -/
theorem round2_rounded (q : Rat) : roundedTo2dp (round2 q) := by
  unfold round2
  exact divInt_hundred_rounded _

/-- Elements of a successful `mapM` come from elements of the input. -/
theorem mapM_mem {α β : Type} (f : α → Option β) :
    ∀ (l : List α) (out : List β), l.mapM f = some out →
      ∀ b ∈ out, ∃ a ∈ l, f a = some b := by
  intro l
  induction l with
  | nil =>
    intro out h b hb
    simp only [List.mapM_nil] at h
    obtain rfl : ([] : List β) = out := by simpa using h
    cases hb
  | cons a t ih =>
    intro out h b hb
    rw [List.mapM_cons] at h
    cases hfa : f a with
    | none => rw [hfa] at h; simp at h
    | some x =>
      rw [hfa] at h
      cases hft : t.mapM f with
      | none => rw [hft] at h; simp at h
      | some xs =>
        rw [hft] at h
        have hx : x :: xs = out := by simpa using h
        subst hx
        rcases List.mem_cons.mp hb with rfl | hb'
        · exact ⟨a, List.mem_cons_self _ _, hfa⟩
        · obtain ⟨a', ha', hfa'⟩ := ih xs hft b hb'
          exact ⟨a', List.mem_cons_of_mem _ ha', hfa'⟩

/-- A successfully validated record is exactly the field-wise validation
of the supplied row. -/
theorem mkStats_eq_some (row : Row) (out : Row)
    (h : mkPlayerGameweekStats row = some out) :
    row.mapM (fun kv => (validateField kv.1 kv.2).map (fun v => (kv.1, v))) = some out := by
  unfold mkPlayerGameweekStats at h
  cases hm : row.mapM (fun kv => (validateField kv.1 kv.2).map (fun v => (kv.1, v))) with
  | none =>
    rw [hm] at h
    exact absurd h (by simp)
  | some vals =>
    rw [hm] at h
    have h' : (if ((row.find? (fun kv => kv.1 == "id")).isSome
        && (row.find? (fun kv => kv.1 == "gameweek")).isSome
        && (row.find? (fun kv => kv.1 == "season")).isSome : Bool) = true
      then some vals else none) = some out := h
    split at h'
    · exact h'
    · exact absurd h' (by simp)

/-- C6 (amended): in a validated `PlayerGameweekStats` record, every
floating-point-valued field -- the designated `now_cost` / `team_elo`
fields as well as every pass-through extra field whose runtime value is
floating point -- carries a value rounded to exactly 2 decimal places,
provided the values supplied for the designated float fields are numeric
(int or float).  (A numeric string supplied for `now_cost` / `team_elo`
bypasses the rounding validator and is coerced to an unrounded float:
see the counterexample.) -/
theorem round_floats_spec (row : Row) (out : Row)
    (hout : mkPlayerGameweekStats row = some out)
    (hnum : ∀ kv ∈ row, knownFloatFields.contains kv.1 = true → kv.2.isStr = false) :
    ∀ k q, (k, Value.float q) ∈ out → roundedTo2dp q := by
  intro k q hk
  have hm := mkStats_eq_some row out hout
  obtain ⟨kv, hkv, hval⟩ := mapM_mem _ row out hm (k, Value.float q) hk
  obtain ⟨v, hv, heq⟩ := Option.map_eq_some'.mp hval
  rw [Prod.mk.injEq] at heq
  obtain ⟨h1, h2⟩ := heq
  subst h1
  subst h2
  unfold validateField at hv
  split at hv
  · rename_i hfl
    cases hkv2 : kv.2 with
    | int n =>
      rw [hkv2] at hv
      unfold round_floats coerceFloat at hv
      obtain hq : Value.float (round2 (n : Rat)) = Value.float q := Option.some.inj hv
      obtain rfl : round2 (n : Rat) = q := Value.float.inj hq
      exact round2_rounded _
    | float q0 =>
      rw [hkv2] at hv
      unfold round_floats coerceFloat at hv
      obtain hq : Value.float (round2 q0) = Value.float q := Option.some.inj hv
      obtain rfl : round2 q0 = q := Value.float.inj hq
      exact round2_rounded _
    | str s =>
      have hns := hnum kv hkv hfl
      rw [hkv2] at hns
      simp [Value.isStr] at hns
    | nan =>
      rw [hkv2] at hv
      simp [round_floats, coerceFloat] at hv
  · split at hv
    · cases hkv2 : kv.2 with
      | int n =>
        rw [hkv2] at hv
        exact absurd hv (by simp [coerceInt])
      | float q0 =>
        rw [hkv2] at hv
        rw [show coerceInt (Value.float q0) =
          (if q0.den = 1 then some (Value.int q0.num) else none) from rfl] at hv
        split at hv <;> simp at hv
      | str s =>
        rw [hkv2] at hv
        rw [show coerceInt (Value.str s) =
          (parseDecimal s).bind (fun q1 => if q1.den = 1 then some (Value.int q1.num) else none)
          from rfl] at hv
        obtain ⟨q0, _, hif⟩ := Option.bind_eq_some.mp hv
        split at hif <;> simp at hif
      | nan =>
        rw [hkv2] at hv
        exact absurd hv (by simp [coerceInt])
    · split at hv
      · cases hkv2 : kv.2 <;> rw [hkv2] at hv <;> exact absurd hv (by simp [coerceStr])
      · have hre := Option.some.inj hv
        cases hkv2 : kv.2 with
        | int n => rw [hkv2] at hre; exact absurd hre (by simp [roundExtra])
        | float q0 =>
          rw [hkv2] at hre
          rw [show roundExtra (Value.float q0) = Value.float (round2 q0) from rfl] at hre
          obtain rfl : round2 q0 = q := Value.float.inj hre
          exact round2_rounded _
        | str s => rw [hkv2] at hre; exact absurd hre (by simp [roundExtra])
        | nan => rw [hkv2] at hre; exact absurd hre (by simp [roundExtra])

/-- C6 counterexample: a numeric string supplied for `now_cost` passes
through the `round_floats` validator untouched (it is not an int/float)
and is then coerced to the float `2.675 = 107/40`, which does not have 2
decimal places. -/
theorem now_cost_string_escapes_rounding :
    mkPlayerGameweekStats rowStringCost = some
      [("id", Value.int 1), ("gameweek", Value.int 1),
       ("season", Value.str "2025-2026"), ("now_cost", Value.float (Rat.divInt 107 40))] ∧
    ¬ roundedTo2dp (Rat.divInt 107 40) := ⟨rfl, by decide⟩

/-- Concrete instantiation of `round_floats_spec`: with numeric inputs,
the `now_cost` field of the validated record (4.555 rounded to 4.56) has
2 decimal places. -/
theorem round_floats_spec_witness :
    ("now_cost", Value.float (Rat.divInt 114 25)) ∈
      (mkPlayerGameweekStats rowFloatCost).getD [] ∧
    roundedTo2dp (Rat.divInt 114 25) :=
  ⟨by decide,
   round_floats_spec rowFloatCost ((mkPlayerGameweekStats rowFloatCost).getD [])
    (by rfl) (by decide) "now_cost" (Rat.divInt 114 25) (by decide)⟩

/-- Elements of the deduplicated key list come from the original list. -/
theorem mem_firstOccur_aux : ∀ (n : Nat) (l : List (Value × Value)), l.length ≤ n →
    ∀ x, x ∈ firstOccur l → x ∈ l := by
  intro n
  induction n with
  | zero =>
    intro l hl x hx
    have hnil : l = [] := List.eq_nil_of_length_eq_zero (Nat.le_zero.mp hl)
    subst hnil
    simp [firstOccur] at hx
  | succ n ih =>
    intro l hl x hx
    cases l with
    | nil => simp [firstOccur] at hx
    | cons a t =>
      rw [show firstOccur (a :: t) = a :: firstOccur (t.filter (fun y => y != a)) from by
        rw [firstOccur]] at hx
      rcases List.mem_cons.mp hx with rfl | hx'
      · exact List.mem_cons_self _ _
      · have hlen : (t.filter (fun y => y != a)).length ≤ n := by
          have h1 := List.length_filter_le (fun y => y != a) t
          have h2 : t.length + 1 ≤ n + 1 := by simpa using hl
          omega
        have hxt := ih _ hlen x hx'
        exact List.mem_cons_of_mem _ (List.mem_filter.mp hxt).1

/-- Elements of the deduplicated key list come from the original list. -/
theorem mem_of_mem_firstOccur {l : List (Value × Value)} {x : Value × Value}
    (h : x ∈ firstOccur l) : x ∈ l :=
  mem_firstOccur_aux l.length l (Nat.le_refl _) x h

/-- A group key comes from a row with non-missing `id` and `position`. -/
theorem groupKeys_mem (df : Df) (k : Value × Value) (hk : k ∈ groupKeys df) :
    ∃ r ∈ df.rows, (cellR r "id").isNan = false ∧ (cellR r "position").isNan = false ∧
      k = (cellR r "id", cellR r "position") := by
  unfold groupKeys at hk
  obtain ⟨r, hr, heq⟩ := List.mem_filterMap.mp (mem_of_mem_firstOccur hk)
  dsimp only at heq
  split at heq
  · exact absurd heq (by simp)
  · rename_i hcond
    simp only [Bool.or_eq_true, not_or, Bool.not_eq_true] at hcond
    exact ⟨r, hr, hcond.1, hcond.2, (Option.some.inj heq).symm⟩

/-- C7: every key of the `player_stats` mapping built by the aggregation
is the concatenation `"{id}-{position}"` formed from a row whose
`position` (and `id`) is non-missing; every converted record in any
group comes from a row with non-missing `position` (rows with missing
`position` are silently excluded); and when `position` is missing on
every row the aggregation returns the empty mapping. -/
theorem group_player_stats_spec (df : Df) :
    (∀ key stats, (key, stats) ∈ group_player_stats df →
      ∃ r ∈ df.rows, (cellR r "id").isNan = false ∧ (cellR r "position").isNan = false ∧
        key = fmtValue (cellR r "id") ++ "-" ++ fmtValue (cellR r "position")) ∧
    (∀ key stats, (key, stats) ∈ group_player_stats df → ∀ s ∈ stats,
      ∃ r ∈ df.rows, (cellR r "position").isNan = false ∧
        mkPlayerGameweekStats (rowDict r) = some s) ∧
    ((∀ r ∈ df.rows, (cellR r "position").isNan = true) → group_player_stats df = []) := by
  refine ⟨?_, ?_, ?_⟩
  · intro key stats hmem
    unfold group_player_stats at hmem
    obtain ⟨k, hk, heq⟩ := List.mem_filterMap.mp hmem
    dsimp only at heq
    split at heq
    · exact absurd heq (by simp)
    · obtain ⟨r, hr, h1, h2, hkr⟩ := groupKeys_mem df k hk
      have hkey : key = fmtValue k.1 ++ "-" ++ fmtValue k.2 := by
        have hp := Option.some.inj heq
        rw [Prod.mk.injEq] at hp
        exact hp.1.symm
      refine ⟨r, hr, h1, h2, ?_⟩
      rw [hkey, hkr]
  · intro key stats hmem s hs
    unfold group_player_stats at hmem
    obtain ⟨k, hk, heq⟩ := List.mem_filterMap.mp hmem
    dsimp only at heq
    split at heq
    · exact absurd heq (by simp)
    · obtain ⟨r0, hr0, h1, h2, hkr⟩ := groupKeys_mem df k hk
      have hstats : stats = (df.rows.filter (fun r =>
          cellR r "id" == k.1 && cellR r "position" == k.2)).filterMap
            (fun r => mkPlayerGameweekStats (rowDict r)) := by
        have hp := Option.some.inj heq
        rw [Prod.mk.injEq] at hp
        exact hp.2.symm
      rw [hstats] at hs
      obtain ⟨r, hr, hmk⟩ := List.mem_filterMap.mp hs
      obtain ⟨hrmem, hpred⟩ := List.mem_filter.mp hr
      have hpos : cellR r "position" = k.2 :=
        eq_of_beq ((Bool.and_eq_true _ _).mp hpred).2
      refine ⟨r, hrmem, ?_, hmk⟩
      rw [hpos, hkr]
      exact h2
  · intro h
    unfold group_player_stats
    have hgk : groupKeys df = [] := by
      unfold groupKeys
      have hfm : df.rows.filterMap (fun r =>
          let k := (cellR r "id", cellR r "position")
          if (k.1.isNan || k.2.isNan) = true then none else some k) = [] := by
        rw [List.filterMap_eq_nil_iff]
        intro r hr
        dsimp only
        rw [if_pos (by rw [h r hr]; simp)]
      rw [hfm]
      simp [firstOccur]
    rw [hgk]
    rfl

/-- Concrete instantiation of `group_player_stats_spec`: with `position`
missing on every row the aggregation is empty. -/
theorem group_player_stats_spec_witness : group_player_stats dfNanPos = [] :=
  (group_player_stats_spec dfNanPos).2.2 (by decide)

/-- Setting a different column keeps a column's occurrence count. -/
theorem setCol_count (df : Df) (x c : String) (v : Value) (hne : c ≠ x) :
    (df.setCol x v).cols.count c = df.cols.count c := by
  unfold Df.setCol
  split
  · rfl
  · rw [List.count_append, List.count_cons, List.count_nil]
    simp [Ne.symm hne]

/-- Stamping keeps the `status` occurrence count. -/
theorem stampDf_count (df : Df) (gw : Int) (season : String) :
    (stampDf df gw season).cols.count "status" = df.cols.count "status" := by
  unfold stampDf
  rw [setCol_count _ _ _ _ (by decide), setCol_count _ _ _ _ (by decide)]

/-- The folded column union keeps at most one occurrence of `c`. -/
theorem concat_foldl_count (c : String) :
    ∀ (dfs : List Df) (acc : List String), acc.count c ≤ 1 →
      (∀ df ∈ dfs, df.cols.count c ≤ 1) →
      (dfs.foldl (fun acc df => acc ++ df.cols.filter (fun c0 => !acc.contains c0)) acc).count c
        ≤ 1 := by
  intro dfs
  induction dfs with
  | nil =>
    intro acc h _
    simpa using h
  | cons d t ih =>
    intro acc hacc hall
    rw [List.foldl_cons]
    apply ih
    · rw [List.count_append]
      by_cases hc : c ∈ acc
      · have h0 : (d.cols.filter (fun c0 => !acc.contains c0)).count c = 0 := by
          rw [List.count_eq_zero]
          intro hmem
          have h1 := (List.mem_filter.mp hmem).2
          rw [Bool.not_eq_true'] at h1
          exact (contains_false_iff _ _).mp h1 hc
        rw [h0, Nat.add_zero]
        exact hacc
      · rw [List.count_eq_zero.mpr hc, Nat.zero_add]
        exact le_trans (List.Sublist.count_le (List.filter_sublist _) c)
          (hall d (List.mem_cons_self _ _))
    · exact fun df hdf => hall df (List.mem_cons_of_mem _ hdf)

/-- Concatenation keeps at most one `status` column when every source
frame has at most one. -/
theorem concatDfs_count (dfs : List Df) (h : ∀ df ∈ dfs, df.cols.count "status" ≤ 1) :
    (concatDfs dfs).cols.count "status" ≤ 1 := by
  unfold concatDfs
  exact concat_foldl_count "status" dfs [] (by simp) h

/-- The labels of a reindexed row are its target columns. -/
theorem map_fst_keyed (cs : List String) (g : String → Value) :
    (cs.map (fun c => (c, g c))).map Prod.fst = cs := by
  rw [List.map_map]
  exact map_self_of_eq cs _ (fun a _ => rfl)

/-- Reindexed rows carry exactly the target columns. -/
theorem keys_reindex (df : Df) (cs : List String) :
    ∀ r ∈ (df.reindexCols cs).rows, r.map Prod.fst = cs := by
  intro r hr
  rw [Df.reindexCols_rows] at hr
  obtain ⟨r0, _, rfl⟩ := List.mem_map.mp hr
  exact map_fst_keyed cs _

/-- Concatenated rows carry exactly the union columns. -/
theorem keys_concat (dfs : List Df) :
    ∀ r ∈ (concatDfs dfs).rows, r.map Prod.fst = (concatDfs dfs).cols := by
  intro r hr
  unfold concatDfs at hr ⊢
  dsimp only at hr ⊢
  obtain ⟨df, _, hmem⟩ := List.mem_flatMap.mp hr
  obtain ⟨r0, _, rfl⟩ := List.mem_map.mp hmem
  exact map_fst_keyed _ _

/-- Merged rows carry exactly the merged columns. -/
theorem merge_rows_keys (left right : Df) (lk rk ls rs : String)
    (hl : ∀ r ∈ left.rows, r.map Prod.fst = left.cols)
    (hr : ∀ r ∈ right.rows, r.map Prod.fst = right.cols) :
    ∀ r ∈ (Df.merge left right lk rk ls rs).rows,
      r.map Prod.fst = (Df.merge left right lk rk ls rs).cols := by
  intro r hrow
  rw [Df.merge_rows] at hrow
  rw [Df.merge_cols]
  obtain ⟨lr, hlr, hmem⟩ := List.mem_flatMap.mp hrow
  dsimp only at hmem
  split at hmem
  · rw [List.mem_singleton] at hmem
    subst hmem
    rw [List.map_append]
    congr 1
    · rw [List.map_map, ← hl lr hlr, List.map_map]
      rfl
    · rw [List.map_map]
      exact map_self_of_eq _ _ (fun a _ => rfl)
  · obtain ⟨rr, hrr0, rfl⟩ := List.mem_map.mp hmem
    obtain ⟨hrrmem, _⟩ := List.mem_filter.mp hrr0
    rw [List.map_append]
    congr 1
    · rw [List.map_map, ← hl lr hlr, List.map_map]
      rfl
    · rw [List.map_map, ← hr rr hrrmem, List.map_map]
      rfl

/-- Dropping the labels of a filtered row commutes with filtering. -/
theorem map_fst_filter_key (r : Row) (c : String) :
    (r.filter (fun kv => kv.1 != c)).map Prod.fst =
      (r.map Prod.fst).filter (fun k => k != c) := by
  induction r with
  | nil => rfl
  | cons a t ih =>
    cases hb : (a.1 != c) with
    | true => simp [List.filter_cons, List.map_cons, hb, ih]
    | false => simp [List.filter_cons, List.map_cons, hb, ih]

/-- Dropping a column preserves the row-label invariant. -/
theorem keys_dropCol (df : Df) (c : String)
    (h : ∀ r ∈ df.rows, r.map Prod.fst = df.cols) :
    ∀ r ∈ (df.dropCol c).rows, r.map Prod.fst = (df.dropCol c).cols := by
  intro r hr
  rw [Df.dropCol_rows] at hr
  obtain ⟨r0, hr0, rfl⟩ := List.mem_map.mp hr
  rw [Df.dropCol_cols, ← h r0 hr0, map_fst_filter_key]

/-- Renaming preserves the row-label invariant. -/
theorem keys_rename (df : Df) (m : List (String × String))
    (h : ∀ r ∈ df.rows, r.map Prod.fst = df.cols) :
    ∀ r ∈ (df.renameCols m).rows, r.map Prod.fst = (df.renameCols m).cols := by
  intro r hr
  rw [Df.renameCols_rows] at hr
  obtain ⟨r0, hr0, rfl⟩ := List.mem_map.mp hr
  rw [Df.renameCols_cols, ← h r0 hr0, List.map_map, List.map_map]
  rfl

/-- Setting a column preserves the row-label invariant. -/
theorem keys_setCol (df : Df) (x : String) (v : Value)
    (h : ∀ r ∈ df.rows, r.map Prod.fst = df.cols) :
    ∀ r ∈ (df.setCol x v).rows, r.map Prod.fst = (df.setCol x v).cols := by
  unfold Df.setCol
  split
  · intro r hr
    obtain ⟨r0, hr0, rfl⟩ := List.mem_map.mp hr
    show (r0.map _).map Prod.fst = df.cols
    rw [List.map_map, ← h r0 hr0]
    apply map_congr_mem
    intro a _
    show (if a.1 == x then (a.1, v) else a).1 = a.1
    split <;> rfl
  · intro r hr
    obtain ⟨r0, hr0, rfl⟩ := List.mem_map.mp hr
    show (r0 ++ [(x, v)]).map Prod.fst = df.cols ++ [x]
    rw [List.map_append, h r0 hr0]
    rfl

/-- The player merge preserves the row-label invariant. -/
theorem keys_merge_player (left p out : Df)
    (h : ∀ r ∈ left.rows, r.map Prod.fst = left.cols)
    (hok : merge_player_data left p = Except.ok out) :
    ∀ r ∈ out.rows, r.map Prod.fst = out.cols := by
  unfold merge_player_data at hok
  split at hok
  · cases hsel : p.select ["player_id", "position", "team_code"] with
    | error e =>
      rw [hsel] at hok
      exact absurd hok (by simp [Except.map])
    | ok sel =>
      rw [hsel] at hok
      obtain rfl := select_ok_shape p _ sel hsel
      have hok' : Except.ok ((left.merge (p.reindexCols ["player_id", "position", "team_code"])
          "id" "player_id" "_x" "_y").dropCol "player_id") = Except.ok out := hok
      obtain rfl := Except.ok.inj hok'
      exact keys_dropCol _ _ (merge_rows_keys _ _ _ _ _ _ h
        (fun r hr => (keys_reindex p _ r hr).trans (Df.reindexCols_cols p _).symm))
  · have hok' : Except.ok left = Except.ok out := hok
    obtain rfl := Except.ok.inj hok'
    exact h

/-- The team merge preserves the row-label invariant. -/
theorem keys_merge_team (left t out : Df)
    (h : ∀ r ∈ left.rows, r.map Prod.fst = left.cols)
    (hok : merge_team_data left t = Except.ok out) :
    ∀ r ∈ out.rows, r.map Prod.fst = out.cols := by
  unfold merge_team_data at hok
  split at hok
  · cases hsel : t.select ("code" :: (["name", "elo"] ++
        strength_fields.filter (fun c0 => t.cols.contains c0))) with
    | error e =>
      rw [hsel] at hok
      exact absurd hok (by simp [Except.map])
    | ok sel =>
      rw [hsel] at hok
      obtain rfl := select_ok_shape t _ sel hsel
      have hok' : Except.ok
          (if (team_rename_dict ((left.merge (t.reindexCols ("code" :: (["name", "elo"] ++
              strength_fields.filter (fun c0 => t.cols.contains c0))))
              "team_code" "code" "" "_team").dropCol "code")).isEmpty = true then
            ((left.merge (t.reindexCols ("code" :: (["name", "elo"] ++
              strength_fields.filter (fun c0 => t.cols.contains c0))))
              "team_code" "code" "" "_team").dropCol "code")
          else
            ((left.merge (t.reindexCols ("code" :: (["name", "elo"] ++
              strength_fields.filter (fun c0 => t.cols.contains c0))))
              "team_code" "code" "" "_team").dropCol "code").renameCols
              (team_rename_dict ((left.merge (t.reindexCols ("code" :: (["name", "elo"] ++
                strength_fields.filter (fun c0 => t.cols.contains c0))))
                "team_code" "code" "" "_team").dropCol "code"))) = Except.ok out := hok
      obtain rfl := Except.ok.inj hok'
      split
      · exact keys_dropCol _ _ (merge_rows_keys _ _ _ _ _ _ h
          (fun r hr => (keys_reindex t _ r hr).trans (Df.reindexCols_cols t _).symm))
      · exact keys_rename _ _ (keys_dropCol _ _ (merge_rows_keys _ _ _ _ _ _ h
          (fun r hr => (keys_reindex t _ r hr).trans (Df.reindexCols_cols t _).symm)))
  · have hok' : Except.ok left = Except.ok out := hok
    obtain rfl := Except.ok.inj hok'
    exact h

/-- Every converted record of a group comes from a grouped row. -/
theorem mem_group_stats (df : Df) (key : String) (stats : List Row)
    (hmem : (key, stats) ∈ group_player_stats df) (s : Row) (hs : s ∈ stats) :
    ∃ r ∈ df.rows, mkPlayerGameweekStats (rowDict r) = some s := by
  unfold group_player_stats at hmem
  obtain ⟨k, _, heq⟩ := List.mem_filterMap.mp hmem
  dsimp only at heq
  split at heq
  · exact absurd heq (by simp)
  · have hstats : stats = (df.rows.filter (fun r =>
        cellR r "id" == k.1 && cellR r "position" == k.2)).filterMap
          (fun r => mkPlayerGameweekStats (rowDict r)) := by
      have hp := Option.some.inj heq
      rw [Prod.mk.injEq] at hp
      exact hp.2.symm
    rw [hstats] at hs
    obtain ⟨r, hr, hmk⟩ := List.mem_filterMap.mp hs
    exact ⟨r, (List.mem_filter.mp hr).1, hmk⟩

/-- With at most one cell labelled `c`, a labelled cell's value is the
looked-up one. -/
theorem cell_of_mem_unique (r : Row) (c : String)
    (hcount : (r.map Prod.fst).count c ≤ 1) {v : Value} (hv : (c, v) ∈ r) :
    cellR r c = v := by
  induction r with
  | nil => cases hv
  | cons a t ih =>
    rcases List.mem_cons.mp hv with rfl | hvt
    · exact cellR_cons_eq c v t
    · by_cases hac : a.1 = c
      · exfalso
        have h1 : 0 < (t.map Prod.fst).count c :=
          List.count_pos_iff.mpr (List.mem_map_of_mem Prod.fst hvt)
        rw [List.map_cons, List.count_cons] at hcount
        simp [hac] at hcount
        omega
      · rw [cellR_cons_ne a t c hac]
        apply ih _ hvt
        rw [List.map_cons, List.count_cons] at hcount
        have hbe : (a.1 == c) = false := by simp [hac]
        rw [hbe] at hcount
        simpa using hcount

/-- The `status` field of a validated record is never the string `"u"`
when no supplied `status` cell is. -/
theorem mkStats_status_ne (row : Row) (out : Row)
    (hrow : ∀ v, ("status", v) ∈ row → v ≠ Value.str "u")
    (hout : mkPlayerGameweekStats row = some out) :
    ∀ v, ("status", v) ∈ out → v ≠ Value.str "u" := by
  intro v hv
  have hm := mkStats_eq_some row out hout
  obtain ⟨kv, hkv, hval⟩ := mapM_mem _ row out hm ("status", v) hv
  obtain ⟨v0, hv0, heq⟩ := Option.map_eq_some'.mp hval
  rw [Prod.mk.injEq] at heq
  obtain ⟨h1, h2⟩ := heq
  rw [← h2]
  rw [h1] at hv0
  rw [show validateField "status" kv.2 = coerceStr kv.2 from by unfold validateField; rfl] at hv0
  cases hkv2 : kv.2 with
  | str s =>
    rw [hkv2] at hv0
    obtain rfl : Value.str s = v0 := Option.some.inj (by simpa [coerceStr] using hv0)
    have hmemrow : ("status", Value.str s) ∈ row := by
      rw [← h1, ← hkv2]
      exact hkv
    exact hrow (Value.str s) hmemrow
  | int n =>
    rw [hkv2] at hv0
    exact absurd hv0 (by simp [coerceStr])
  | float q =>
    rw [hkv2] at hv0
    exact absurd hv0 (by simp [coerceStr])
  | nan =>
    rw [hkv2] at hv0
    exact absurd hv0 (by simp [coerceStr])

/-- A successful `filterStatus` keeps the columns and filters the rows. -/
theorem filterStatus_ok (df out : Df) (h : filterStatus df = Except.ok out) :
    out.cols = df.cols ∧
    out.rows = df.rows.filter (fun r => !(cellR r "status").keyEq (Value.str "u")) := by
  unfold filterStatus at h
  split at h
  · cases h
    exact ⟨rfl, rfl⟩
  · exact absurd h (by simp)

/-- Shape of a successful stats load: either the empty frame (no files)
or a frame whose rows carry the frame's columns, with at most one
`status` column (sources being `read_csv` outputs have unique columns)
and no row whose `status` cell is the string `'u'`. -/
theorem load_stats_ok_shape (src : DataSource) (ids : List Int) (season : String) (df : Df)
    (hwf : ∀ gw ∈ ids, ∀ d, src.statsFile gw = some d → d.cols.count "status" ≤ 1)
    (h : load_player_gameweek_stats src ids season = Except.ok df) :
    df = Df.empty ∨
      ((∀ r ∈ df.rows, r.map Prod.fst = df.cols) ∧ df.cols.count "status" ≤ 1 ∧
        ∀ r ∈ df.rows, (cellR r "status").keyEq (Value.str "u") = false) := by
  unfold load_player_gameweek_stats at h
  dsimp only at h
  by_cases hne : (ids.filterMap (fun gw =>
      (src.statsFile gw).map (fun d => stampDf d gw season))).isEmpty = true
  · rw [if_pos hne] at h
    left
    cases h
    rfl
  · rw [if_neg hne] at h
    right
    cases hmp : merge_player_data (concatDfs (ids.filterMap (fun gw =>
        (src.statsFile gw).map (fun d => stampDf d gw season))))
        (load_players_data src ids) with
    | error e =>
      rw [hmp] at h
      exact absurd h (by simp [Except.bind])
    | ok c1 =>
      rw [hmp] at h
      have h1 : Except.bind (merge_team_data c1 (load_teams_data src ids)) filterStatus =
          Except.ok df := h
      cases hmt : merge_team_data c1 (load_teams_data src ids) with
      | error e =>
        rw [hmt] at h1
        exact absurd h1 (by simp [Except.bind])
      | ok c2 =>
        rw [hmt] at h1
        have h2 : filterStatus c2 = Except.ok df := h1
        obtain ⟨hcols, hrows⟩ := filterStatus_ok _ _ h2
        refine ⟨?_, ?_, ?_⟩
        · intro r hr
          rw [hrows] at hr
          rw [hcols]
          exact keys_merge_team _ _ _ (keys_merge_player _ _ _ (keys_concat _) hmp) hmt r
            (List.mem_filter.mp hr).1
        · rw [hcols]
          rw [merge_team_data_count _ _ _ _ (by decide) (by decide) (by decide) hmt,
            merge_player_data_count _ _ _ _ (by decide) (by decide) hmp]
          apply concatDfs_count
          intro d hd
          obtain ⟨gw, hgw, heq⟩ := List.mem_filterMap.mp hd
          obtain ⟨d0, hd0, hstamp⟩ := Option.map_eq_some'.mp heq
          rw [← hstamp, stampDf_count]
          exact hwf gw hgw d0 hd0
        · intro r hr
          rw [hrows] at hr
          have hr2 := (List.mem_filter.mp hr).2
          simpa using hr2

/-- C5: no stat row whose `status` equals `"u"` ever reaches the final
`player_stats` mapping (for sources whose stats files, as `read_csv`
outputs, carry at most one `status` column), and every row whose
`status` is absent (`NaN`) passes through the unavailability filter. -/
theorem status_u_never_in_output :
    (∀ (src : DataSource) (resp : FPLAnalysisResponse),
      (∀ gw ∈ get_recent_finished_gameweeks src.schedule 5, ∀ d,
        src.statsFile gw = some d → d.cols.count "status" ≤ 1) →
      analyse_fpl src = Except.ok resp →
      ∀ key stats, (key, stats) ∈ resp.player_stats → ∀ s ∈ stats,
        ∀ v, ("status", v) ∈ s → v ≠ Value.str "u") ∧
    (∀ df out : Df, filterStatus df = Except.ok out →
      ∀ r ∈ df.rows, (cellR r "status").isNan = true → r ∈ out.rows) := by
  constructor
  · intro src resp hwf hresp key stats hks s hs v hv
    unfold analyse_fpl at hresp
    dsimp only at hresp
    split at hresp
    · cases hresp
      exact absurd hks (List.not_mem_nil _)
    · cases hload : load_player_gameweek_stats src
          (get_recent_finished_gameweeks src.schedule 5) "2025-2026" with
      | error e =>
        rw [hload] at hresp
        exact absurd hresp (by simp)
      | ok pdf =>
        rw [hload] at hresp
        have hresp' : (if pdf.isEmpty = true then
            Except.ok (⟨get_recent_finished_gameweeks src.schedule 5,
              get_next_gameweek src.schedule, []⟩ : FPLAnalysisResponse)
          else if (!pdf.cols.contains "position") = true then
            Except.ok ⟨get_recent_finished_gameweeks src.schedule 5,
              get_next_gameweek src.schedule, []⟩
          else
            Except.ok ⟨get_recent_finished_gameweeks src.schedule 5,
              get_next_gameweek src.schedule, group_player_stats pdf⟩) =
            Except.ok resp := hresp
        split at hresp'
        · cases hresp'
          exact absurd hks (List.not_mem_nil _)
        · split at hresp'
          · cases hresp'
            exact absurd hks (List.not_mem_nil _)
          · cases hresp'
            obtain ⟨r, hrmem, hmk⟩ := mem_group_stats pdf key stats hks s hs
            rcases load_stats_ok_shape src _ "2025-2026" pdf hwf hload with
              rfl | ⟨hkeys, hcount, hstat⟩
            · exact absurd hrmem (List.not_mem_nil _)
            · apply mkStats_status_ne (rowDict r) s ?_ hmk v hv
              intro v0 hv0
              have hvr : ("status", v0) ∈ r := (List.mem_filter.mp hv0).1
              have hcell : cellR r "status" = v0 := by
                apply cell_of_mem_unique r "status" ?_ hvr
                rw [hkeys r hrmem]
                exact hcount
              intro hcontra
              subst hcontra
              have hzz := hstat r hrmem
              rw [hcell] at hzz
              simp [Value.keyEq] at hzz
  · intro df out h r hr hnan
    obtain ⟨_, hrows⟩ := filterStatus_ok df out h
    rw [hrows]
    apply List.mem_filter.mpr
    refine ⟨hr, ?_⟩
    cases hcell : cellR r "status" with
    | nan => rfl
    | int n => rw [hcell] at hnan; simp [Value.isNan] at hnan
    | float q => rw [hcell] at hnan; simp [Value.isNan] at hnan
    | str s => rw [hcell] at hnan; simp [Value.isNan] at hnan

/-- Concrete instantiation of `status_u_never_in_output`: the
absent-status row passes the filter. -/
theorem status_u_never_in_output_witness :
    ([("status", Value.nan)] : Row) ∈ dfNanStatus.rows :=
  status_u_never_in_output.2 dfNanStatus dfNanStatus rfl
    [("status", Value.nan)] (by decide) (by decide)
